import Mathlib

/-!
# The worker of `src/utils/thread_utils.c` and the quantizer division of `src/enc/vp8i_enc.h`

A shallow embedding of the worker state machine (`Init`, `Reset`, `Sync`, `Launch`,
`Execute`, `End`, `ChangeState`, `ThreadLoop`) in both of its builds, and of the
fixed-point helpers `QFIX`, `BIAS`, `QUANTDIV`.

## How the threaded build is embedded

Every access the worker thread makes to the worker happens between the
`pthread_mutex_lock` and the `pthread_mutex_unlock` of one iteration of `ThreadLoop`, and
`ChangeState` touches the worker only while it holds the same mutex.  The embedding
therefore takes one iteration of `ThreadLoop` as one atomic turn of the worker thread.
The scheduler is explicit:

* a turn of the worker thread may be placed between any two calls of the main thread
  (`Op.yield`), and inside `Reset` between the unlocked store to `had_error` and the
  unlocked reads of `status` (the `preempt` argument of `Reset`);
* when the main thread blocks (in `pthread_cond_wait` or `pthread_join`) the worker thread
  is the only thread that can run, so it takes its turn there.

A call that would block for ever yields `Fault.deadlock`, a failing `assert` yields
`Fault.assertion`.  The environment holds the one thread that `Reset` creates, and the
built-in interface is the one installed, so that `ThreadLoop` calls the `Execute` below.
A direct call of `Execute` by the main thread and an assignment of the hook and its
arguments count as one step each.
-/

namespace WebP

/-! ## Data model -/

/-- Modelled from the spec: the enum `WebPWorkerStatus` is declared in `thread_utils.h`,
which is not part of the sources at hand; the spec describes it as an ordered status,
"not yet started" < "ready/idle" < "executing". -/
inductive WebPWorkerStatus
  | NOT_OK
  | OK
  | WORK
  deriving DecidableEq, Repr

/-- The integer value of a status, used by the comparisons `<`, `<=`, `>=`, `>` of the code. -/
def WebPWorkerStatus.toNat : WebPWorkerStatus → Nat
  | .NOT_OK => 0
  | .OK => 1
  | .WORK => 2

/-- The type `int (*WebPWorkerHook)(void*, void*)`: a task, as a function of its two opaque
arguments to its return value (zero means failure). -/
abbrev WebPWorkerHook := Nat → Nat → Int

/-- Modelled from the spec: the struct `WebPWorker` is declared in `thread_utils.h`; its
fields are the ones `thread_utils.c` reads and writes.  `impl` is `none` for `NULL` and
otherwise names the block returned by `WebPSafeCalloc`; `hook` is `none` for `NULL`. -/
structure WebPWorker where
  impl : Option Nat
  status : WebPWorkerStatus
  hook : Option WebPWorkerHook
  data1 : Nat
  data2 : Nat
  had_error : Int

/-- One invocation `hook(data1, data2)`. -/
structure HookCall where
  hook : WebPWorkerHook
  data1 : Nat
  data2 : Nat

/-- A worker together with the part of its environment that the code acts on. -/
structure Sys where
  /-- The `WebPWorker` object. -/
  worker : WebPWorker
  /-- A thread running `ThreadLoop` on the worker exists and has not returned. -/
  thread : Bool
  /-- The hook invocations made so far, oldest first. -/
  trace : List HookCall
  /-- The number of calls of `WebPSafeCalloc`. -/
  allocs : Nat
  /-- The number of threads started by `pthread_create`. -/
  spawns : Nat
  /-- The number of calls of `pthread_cond_wait` made by the main thread. -/
  waits : Nat

/-- The ways a call can fail to return. -/
inductive Fault
  | deadlock
  | assertion
  deriving DecidableEq, Repr

/-- What the four fallible steps of `Reset` return: whether `WebPSafeCalloc` yields a block,
and the return values of `pthread_mutex_init`, `pthread_cond_init`, `pthread_create`. -/
structure SetupEnv where
  calloc_ok : Bool
  mutex_init : Int
  cond_init : Int
  create : Int
  deriving DecidableEq, Repr

/-- Every setup step succeeds. -/
def SetupEnv.good : SetupEnv :=
  { calloc_ok := true, mutex_init := 0, cond_init := 0, create := 0 }

/-- Some setup step of `Reset` fails: the allocation, the mutex, the condition or the thread. -/
def SetupEnv.fails (env : SetupEnv) : Bool :=
  !env.calloc_ok || decide (env.mutex_init ≠ 0) || decide (env.cond_init ≠ 0)
    || decide (env.create ≠ 0)

/-! ## The code -/

/-- The function `Execute`: `if (hook != NULL) had_error |= !hook(data1, data2);`. -/
def Execute (s : Sys) : Sys :=
  match s.worker.hook with
  | none => s
  | some h =>
    { s with
      worker := { s.worker with
        had_error := Int.lor s.worker.had_error
          (if h s.worker.data1 s.worker.data2 = 0 then 1 else 0) }
      trace := s.trace ++ [⟨h, s.worker.data1, s.worker.data2⟩] }

/-- One turn of the thread running `ThreadLoop`: with the mutex held it leaves the inner
`while (status == OK)` loop only when the status is not `OK`, then either executes the task
and sets the status back to `OK`, or (status `NOT_OK`) sets `done` and returns. -/
def ThreadLoop (s : Sys) : Sys :=
  if s.thread then
    match s.worker.status with
    | .OK => s
    | .WORK =>
      let s1 := Execute s
      { s1 with worker := { s1.worker with status := .OK } }
    | .NOT_OK => { s with thread := false }
  else s

/-- The loop `while (worker->status != OK) pthread_cond_wait(...)` of `ChangeState`: when the
status is not `OK` the main thread waits, the worker thread takes its turn, and the
predicate is tested again; if it still fails nobody is left to signal the condition. -/
def waitUntilOK (s : Sys) : Except Fault Sys :=
  if s.worker.status = .OK then .ok s
  else
    let s1 := ThreadLoop { s with waits := s.waits + 1 }
    if s1.worker.status = .OK then .ok s1 else .error .deadlock

/-- The function `ChangeState` (threaded build only). -/
def ChangeState (s : Sys) (new_status : WebPWorkerStatus) : Except Fault Sys :=
  match s.worker.impl with
  | none => .ok s
  | some _ =>
    if WebPWorkerStatus.OK.toNat ≤ s.worker.status.toNat then
      match waitUntilOK s with
      | .error e => .error e
      | .ok s1 =>
        if new_status ≠ .OK then
          .ok { s1 with worker := { s1.worker with status := new_status } }
        else .ok s1
    else .ok s

/-- The function `Init`: `memset` to zero, then `status = NOT_OK`. -/
def Init (_w : WebPWorker) : WebPWorker :=
  { impl := none, status := .NOT_OK, hook := none, data1 := 0, data2 := 0, had_error := 0 }

/-- The function `Sync`; `use_thread` tells whether `WEBP_USE_THREAD` is defined. -/
def Sync (use_thread : Bool) (s : Sys) : Except Fault (Int × Sys) :=
  match (if use_thread then ChangeState s .OK else .ok s) with
  | .error e => .error e
  | .ok s1 =>
    if s1.worker.status.toNat ≤ WebPWorkerStatus.OK.toNat then
      .ok (if s1.worker.had_error = 0 then 1 else 0, s1)
    else .error .assertion

/-- The end of `Reset`: `assert(!ok || (worker->status == OK)); return ok;`. -/
def ResetReturn (ok : Int) (s : Sys) : Except Fault (Int × Sys) :=
  if ok = 0 ∨ s.worker.status = .OK then .ok (ok, s) else .error .assertion

/-- The label `Error:` of `Reset`: `WebPSafeFree(impl); worker->impl = NULL; return 0;`. -/
def ResetError (s : Sys) : Except Fault (Int × Sys) :=
  .ok (0, { s with worker := { s.worker with impl := none } })

/-- The function `Reset`.  `env` gives the results of the setup calls, and `preempt` tells
whether the worker thread takes a turn after the store `worker->had_error = 0` and before
the tests of `worker->status`, which the main thread makes without holding the mutex.
The turn of the worker thread is taken as a whole.  This is every interleaving when no task
is in flight, for the worker thread then stores nothing.  With a task in flight it is one
interleaving among others: in the source the store can also fall between the call of
`Execute` in the worker thread and its store of `OK`. -/
def Reset (use_thread : Bool) (env : SetupEnv) (preempt : Bool) (s : Sys) :
    Except Fault (Int × Sys) :=
  let s1 := { s with worker := { s.worker with had_error := 0 } }
  let s2 := if use_thread && preempt then ThreadLoop s1 else s1
  if s2.worker.status.toNat < WebPWorkerStatus.OK.toNat then
    if use_thread then
      let s3 := { s2 with allocs := s2.allocs + 1 }
      if env.calloc_ok then
        let s4 := { s3 with worker := { s3.worker with impl := some s3.allocs } }
        if env.mutex_init ≠ 0 then ResetError s4
        else if env.cond_init ≠ 0 then ResetError s4
        else if env.create = 0 then
          ResetReturn 1
            { s4 with
              thread := true
              spawns := s4.spawns + 1
              worker := { s4.worker with status := .OK } }
        else ResetError s4
      else .ok (0, { s3 with worker := { s3.worker with impl := none } })
    else ResetReturn 1 { s2 with worker := { s2.worker with status := .OK } }
  else if WebPWorkerStatus.OK.toNat < s2.worker.status.toNat then
    match Sync use_thread s2 with
    | .error e => .error e
    | .ok (ok, s3) => ResetReturn ok s3
  else ResetReturn 1 s2

/-- The function `Launch`. -/
def Launch (use_thread : Bool) (s : Sys) : Except Fault Sys :=
  if use_thread then ChangeState s .WORK else .ok (Execute s)

/-- The call `pthread_join(impl->thread, NULL)`: the caller blocks until the thread has
returned, so the thread takes its turn; if it is still there afterwards it idles in
`pthread_cond_wait` and the join never returns. -/
def pthread_join (s : Sys) : Except Fault Sys :=
  let s1 := ThreadLoop s
  if s1.thread then .error .deadlock else .ok s1

/-- The function `End`. -/
def End (use_thread : Bool) (s : Sys) : Except Fault Sys :=
  let body : Except Fault Sys :=
    if use_thread then
      match s.worker.impl with
      | some _ =>
        match ChangeState s .NOT_OK with
        | .error e => .error e
        | .ok s1 =>
          match pthread_join s1 with
          | .error e => .error e
          | .ok s2 => .ok { s2 with worker := { s2.worker with impl := none } }
      | none => .ok s
    else
      let s1 := { s with worker := { s.worker with status := .NOT_OK } }
      if s1.worker.impl = none then .ok s1 else .error .assertion
  match body with
  | .error e => .error e
  | .ok s1 => if s1.worker.status = .NOT_OK then .ok s1 else .error .assertion

/-! ## Sequences of calls -/

/-- A worker freshly initialised by `Init`, with no thread and an empty history. -/
def boot (w : WebPWorker) : Sys :=
  { worker := Init w, thread := false, trace := [], allocs := 0, spawns := 0, waits := 0 }

/-- What the caller (and the scheduler) can do with a worker. -/
inductive Op
  /-- The caller stores a hook and its two arguments into the worker. -/
  | assign (hook : Option WebPWorkerHook) (data1 data2 : Nat)
  | Reset (env : SetupEnv) (preempt : Bool)
  | Launch
  | Sync
  | Execute
  | End
  /-- The scheduler gives the worker thread a turn (threaded build). -/
  | yield

/-- What is observed of a call: the value returned by `Reset`; the value returned by `Sync`
with the status, error flag and hook history after it; the same three after `End`. -/
inductive Obs
  | reset (ok : Int)
  | sync (ret : Int) (status : WebPWorkerStatus) (had_error : Int) (trace : List HookCall)
  | ended (status : WebPWorkerStatus) (had_error : Int) (trace : List HookCall)

/-- The effect of one operation. -/
def step (use_thread : Bool) (op : Op) (s : Sys) : Except Fault (List Obs × Sys) :=
  match op with
  | .assign h d1 d2 =>
    .ok ([], { s with worker := { s.worker with hook := h, data1 := d1, data2 := d2 } })
  | .Reset env preempt =>
    match Reset use_thread env preempt s with
    | .error e => .error e
    | .ok (ok, s1) => .ok ([.reset ok], s1)
  | .Launch =>
    match Launch use_thread s with
    | .error e => .error e
    | .ok s1 => .ok ([], s1)
  | .Sync =>
    match Sync use_thread s with
    | .error e => .error e
    | .ok (r, s1) => .ok ([.sync r s1.worker.status s1.worker.had_error s1.trace], s1)
  | .Execute => .ok ([], Execute s)
  | .End =>
    match End use_thread s with
    | .error e => .error e
    | .ok s1 => .ok ([.ended s1.worker.status s1.worker.had_error s1.trace], s1)
  | .yield => .ok ([], if use_thread then ThreadLoop s else s)

/-- The effect of a sequence of operations, with the observations in order. -/
def run (use_thread : Bool) : List Op → Sys → Except Fault (List Obs × Sys)
  | [], s => .ok ([], s)
  | op :: ops, s =>
    match step use_thread op s with
    | .error e => .error e
    | .ok (o1, s1) =>
      match run use_thread ops s1 with
      | .error e => .error e
      | .ok (o2, s2) => .ok (o1 ++ o2, s2)

/-- The values returned by the calls of `Sync`, in order. -/
def syncReturns : List Obs → List Int
  | [] => []
  | .sync r _ _ _ :: os => r :: syncReturns os
  | _ :: os => syncReturns os

/-- The values returned by the calls of `Reset`, in order. -/
def resetReturns : List Obs → List Int
  | [] => []
  | .reset r :: os => r :: resetReturns os
  | _ :: os => resetReturns os

/-- The operation is a call of `Reset`. -/
def Op.isReset : Op → Bool
  | .Reset _ _ => true
  | _ => false

/-- The operation makes the caller hand a task over or run one: `Launch` or `Execute`. -/
def Op.startsTask : Op → Bool
  | .Launch => true
  | .Execute => true
  | _ => false

/-- The operation is one of `Launch`, `Sync`, `End`, or a turn of the worker thread. -/
def Op.isLaunchSyncEnd : Op → Bool
  | .Launch => true
  | .Sync => true
  | .End => true
  | .yield => true
  | _ => false

/-- The scheduler gives the worker thread `n` turns in a row. -/
def yields (n : Nat) : List Op := List.replicate n Op.yield

/-- The effect of `n` turns in a row: the first one does all there is to do. -/
def turns (use_thread : Bool) (n : Nat) (s : Sys) : Sys :=
  if use_thread && decide (n ≠ 0) then ThreadLoop s else s

/-- The states in which the interface keeps a worker.  Threaded build: either no `impl`,
status `NOT_OK` and no thread, or an `impl`, a status other than `NOT_OK` and a live thread.
Inline build: no `impl`, no thread and a status other than `WORK`. -/
def Sys.wf (use_thread : Bool) (s : Sys) : Prop :=
  if use_thread then
    (s.worker.impl = none ∧ s.worker.status = .NOT_OK ∧ s.thread = false) ∨
    (s.worker.impl ≠ none ∧ s.worker.status ≠ .NOT_OK ∧ s.thread = true)
  else s.worker.impl = none ∧ s.worker.status ≠ .WORK ∧ s.thread = false

instance (use_thread : Bool) (s : Sys) : Decidable (s.wf use_thread) := by
  unfold Sys.wf
  infer_instance

/-- What a run shows, in comparable form: the values returned by `Reset`, the values
returned by `Sync`, and the final error flag, status and number of hook invocations. -/
def summary (r : Except Fault (List Obs × Sys)) :
    Option (List Int × List Int × Int × WebPWorkerStatus × Nat) :=
  match r with
  | .error _ => none
  | .ok (o, s) =>
    some (resetReturns o, syncReturns o, s.worker.had_error, s.worker.status, s.trace.length)

/-- The task the worker holds fails: its hook is not `NULL` and returns zero on the two
arguments stored in the worker. -/
def hookFails (w : WebPWorker) : Bool :=
  match w.hook with
  | none => false
  | some h => decide (h w.data1 w.data2 = 0)

/-- The invocation returned zero, that is, the task failed. -/
def HookCall.fails (c : HookCall) : Bool := decide (c.hook c.data1 c.data2 = 0)

/-- The call returns and its result satisfies `P`. -/
def Returns {α : Type} (r : Except Fault α) (P : α → Prop) : Prop :=
  match r with
  | .ok a => P a
  | .error _ => False

/-- How far the caller is in the protocol of the spec: the worker is `Idle`, `Ready`, or a
task has been launched and not yet synchronised. -/
inductive Phase
  | idle
  | ready
  | busy
  deriving DecidableEq, Repr

/-- The calls a caller makes when it keeps to the protocol: `Launch` only on a worker that
was `Reset` successfully and not ended since, `Reset` and the assignment of the hook only
while no launched task is unsynchronised, every setup step of `Reset` succeeding.  The
result is the phase after the call, `none` when the call is outside the protocol. -/
def protocol : Phase → Op → Option Phase
  | p, .yield => some p
  | _, .End => some .idle
  | .idle, .Sync => some .idle
  | _, .Sync => some .ready
  | .idle, .Launch => none
  | _, .Launch => some .busy
  | .busy, .assign _ _ _ => none
  | p, .assign _ _ _ => some p
  | .busy, .Reset _ _ => none
  | _, .Reset env _ => if env = SetupEnv.good then some .ready else none
  | _, .Execute => none

/-- The whole sequence keeps to the protocol, starting in phase `p`. -/
def obeys : Phase → List Op → Bool
  | _, [] => true
  | p, op :: ops =>
    match protocol p op with
    | none => false
    | some q => obeys q ops

/-- The correspondence between the threaded build (state `t`) and the inline build (state
`i`) in phase `p`: same hook and arguments, and the inline build has already run the task
that the threaded build may still have pending. -/
def Sim (p : Phase) (t i : Sys) : Prop :=
  t.worker.hook = i.worker.hook ∧ t.worker.data1 = i.worker.data1 ∧
  t.worker.data2 = i.worker.data2 ∧ i.worker.impl = none ∧ i.thread = false ∧
  i.worker.had_error = (ThreadLoop t).worker.had_error ∧ i.trace = (ThreadLoop t).trace ∧
  match p with
  | .idle =>
    t.worker.impl = none ∧ t.worker.status = .NOT_OK ∧ t.thread = false ∧
      i.worker.status = .NOT_OK
  | .ready =>
    t.worker.impl ≠ none ∧ t.worker.status = .OK ∧ t.thread = true ∧ i.worker.status = .OK
  | .busy =>
    t.worker.impl ≠ none ∧ t.worker.status ≠ .NOT_OK ∧ t.thread = true ∧
      i.worker.status = .OK

/-- A hook that always fails. -/
def failingHook : WebPWorkerHook := fun _ _ => 0

/-- A hook that always succeeds. -/
def passingHook : WebPWorkerHook := fun _ _ => 1

/-- Some memory content before `Init`. -/
def rawWorker : WebPWorker :=
  { impl := some 99, status := .WORK, hook := none, data1 := 7, data2 := 9, had_error := 5 }

/-- Two runs, of the threaded and of the inline build, both return, show the same
observations, and end in corresponding states of phase `q`. -/
def Agree (q : Phase) (a b : Except Fault (List Obs × Sys)) : Prop :=
  match a, b with
  | .ok (o1, t), .ok (o2, i) => o1 = o2 ∧ Sim q t i
  | _, _ => False

/-- A `Ready` worker of the threaded build holding the hook `h`. -/
def readyWorker (h : WebPWorkerHook) : Sys :=
  { worker := { impl := some 1, status := .OK, hook := some h, data1 := 0, data2 := 0,
                had_error := 0 }
    thread := true, trace := [], allocs := 1, spawns := 1, waits := 0 }

/-- A worker of the threaded build with the task `h` launched and still in flight. -/
def runningWorker (h : WebPWorkerHook) : Sys :=
  { worker := { impl := some 1, status := .WORK, hook := some h, data1 := 0, data2 := 0,
                had_error := 0 }
    thread := true, trace := [], allocs := 1, spawns := 1, waits := 0 }

/-! ## The quantizer division of `vp8i_enc.h` -/

/-- The macro `QFIX`. -/
def QFIX : Nat := 17

/-- The conversion to `uint32_t`, which is also the wrap-around of its arithmetic. -/
def toUint32 (x : Nat) : Nat := x % 2 ^ 32

/-- The macro `BIAS(b)`, `((b) << (QFIX - 8))`, on a non-negative argument of a 32-bit
type.  The shift is made in the width of the argument, so the bits shifted out of the 32
are lost: this is the result for a `uint32_t`.  For an `int` (also a `uint8_t` after
promotion) the result of the C expression is defined only while it fits, that is for
`b < 2^22`, where no bit is lost. -/
def BIAS (b : Nat) : Nat := toUint32 (b <<< (QFIX - 8))

/-- The cast `(int)` of a `uint32_t` value to a 32-bit signed integer. -/
def toInt (v : Nat) : Int := if v < 2 ^ 31 then (v : Int) else (v : Int) - 2 ^ 32

/-- The function `QUANTDIV`: `(int)((n * iQ + B) >> QFIX)` with `uint32_t` operands. -/
def QUANTDIV (n iQ B : Nat) : Int :=
  toInt (toUint32 (toUint32 (toUint32 n * toUint32 iQ) + toUint32 B) >>> QFIX)

/-! ## The interface table of `thread_utils.c` -/

/-- A value of one of the six function-pointer types of the interface: one of the six
built-in functions of `thread_utils.c`, or a function supplied by the user. -/
inductive WorkerFn
  | Init
  | Reset
  | Sync
  | Launch
  | Execute
  | End
  | user (addr : Nat)
  deriving DecidableEq, Repr

/-- Modelled from the spec: the struct `WebPWorkerInterface` is declared in
`thread_utils.h`; its six members are the ones `WebPSetWorkerInterface` tests and the
initialiser of `g_worker_interface` fills.  A member is `none` for `NULL`. -/
structure WebPWorkerInterface where
  Init : Option WorkerFn
  Reset : Option WorkerFn
  Sync : Option WorkerFn
  Launch : Option WorkerFn
  Execute : Option WorkerFn
  End : Option WorkerFn
  deriving DecidableEq, Repr

/-- The initial value of the static `g_worker_interface`. -/
def g_worker_interface : WebPWorkerInterface :=
  { Init := some .Init, Reset := some .Reset, Sync := some .Sync, Launch := some .Launch,
    Execute := some .Execute, End := some .End }

/-- The function `WebPSetWorkerInterface`: `g` is the value of `g_worker_interface` on
entry, `winterface` the argument (`none` for `NULL`); the result is the value returned and
the value of `g_worker_interface` on return. -/
def WebPSetWorkerInterface (g : WebPWorkerInterface)
    (winterface : Option WebPWorkerInterface) : Int × WebPWorkerInterface :=
  match winterface with
  | none => (0, g)
  | some w =>
    if w.Init = none ∨ w.Reset = none ∨ w.Sync = none ∨ w.Launch = none ∨
        w.Execute = none ∨ w.End = none then (0, g)
    else (1, w)

/-- The function `WebPGetWorkerInterface`: the value its result points to. -/
def WebPGetWorkerInterface (g : WebPWorkerInterface) : WebPWorkerInterface := g

/-! ## The layout of the sample and prediction caches of `vp8i_enc.h`

`BPS` is defined in `src/dsp/dsp.h`, which is not part of the sources at hand; the offsets
take it as a parameter. -/

/-- The macro `YUV_SIZE_ENC`. -/
def YUV_SIZE_ENC (BPS : Nat) : Nat := BPS * 16

/-- The macro `PRED_SIZE_ENC`. -/
def PRED_SIZE_ENC (BPS : Nat) : Nat := 32 * BPS + 16 * BPS + 8 * BPS

/-- The macro `Y_OFF_ENC`. -/
def Y_OFF_ENC : Nat := 0

/-- The macro `U_OFF_ENC`. -/
def U_OFF_ENC : Nat := 16

/-- The macro `V_OFF_ENC`. -/
def V_OFF_ENC : Nat := 16 + 8

/-- The macro `I16DC16`. -/
def I16DC16 (BPS : Nat) : Nat := 0 * 16 * BPS

/-- The macro `I16TM16`. -/
def I16TM16 (BPS : Nat) : Nat := I16DC16 BPS + 16

/-- The macro `I16VE16`. -/
def I16VE16 (BPS : Nat) : Nat := 1 * 16 * BPS

/-- The macro `I16HE16`. -/
def I16HE16 (BPS : Nat) : Nat := I16VE16 BPS + 16

/-- The macro `C8DC8`. -/
def C8DC8 (BPS : Nat) : Nat := 2 * 16 * BPS

/-- The macro `C8TM8`. -/
def C8TM8 (BPS : Nat) : Nat := C8DC8 BPS + 1 * 16

/-- The macro `C8VE8`. -/
def C8VE8 (BPS : Nat) : Nat := 2 * 16 * BPS + 8 * BPS

/-- The macro `C8HE8`. -/
def C8HE8 (BPS : Nat) : Nat := C8VE8 BPS + 1 * 16

/-- The macro `I4DC4`. -/
def I4DC4 (BPS : Nat) : Nat := 3 * 16 * BPS + 0

/-- The macro `I4TM4`. -/
def I4TM4 (BPS : Nat) : Nat := I4DC4 BPS + 4

/-- The macro `I4VE4`. -/
def I4VE4 (BPS : Nat) : Nat := I4DC4 BPS + 8

/-- The macro `I4HE4`. -/
def I4HE4 (BPS : Nat) : Nat := I4DC4 BPS + 12

/-- The macro `I4RD4`. -/
def I4RD4 (BPS : Nat) : Nat := I4DC4 BPS + 16

/-- The macro `I4VR4`. -/
def I4VR4 (BPS : Nat) : Nat := I4DC4 BPS + 20

/-- The macro `I4LD4`. -/
def I4LD4 (BPS : Nat) : Nat := I4DC4 BPS + 24

/-- The macro `I4VL4`. -/
def I4VL4 (BPS : Nat) : Nat := I4DC4 BPS + 28

/-- The macro `I4HD4`. -/
def I4HD4 (BPS : Nat) : Nat := 3 * 16 * BPS + 4 * BPS

/-- The macro `I4HU4`. -/
def I4HU4 (BPS : Nat) : Nat := I4HD4 BPS + 4

/-- The macro `I4TMP`. -/
def I4TMP (BPS : Nat) : Nat := I4HD4 BPS + 8

/-- A block of samples in a cache: its offset, its width (bytes per row) and its height
(rows). -/
structure Block where
  off : Nat
  width : Nat
  height : Nat
  deriving DecidableEq, Repr

/-- The bytes a block occupies in a cache of row stride `BPS`: `off + row * BPS + col`. -/
def Block.bytes (BPS : Nat) (b : Block) : List Nat :=
  (List.range b.height).flatMap fun row =>
    (List.range b.width).map fun col => b.off + row * BPS + col

/-- The blocks of the prediction area `yuv_p`: four 16x16 intra16 predictions, four chroma
predictions of two 8x8 blocks side by side (16 bytes wide, 8 rows), eleven 4x4 blocks. -/
def predBlocks (BPS : Nat) : List Block :=
  [⟨I16DC16 BPS, 16, 16⟩, ⟨I16TM16 BPS, 16, 16⟩, ⟨I16VE16 BPS, 16, 16⟩, ⟨I16HE16 BPS, 16, 16⟩,
   ⟨C8DC8 BPS, 16, 8⟩, ⟨C8TM8 BPS, 16, 8⟩, ⟨C8VE8 BPS, 16, 8⟩, ⟨C8HE8 BPS, 16, 8⟩,
   ⟨I4DC4 BPS, 4, 4⟩, ⟨I4TM4 BPS, 4, 4⟩, ⟨I4VE4 BPS, 4, 4⟩, ⟨I4HE4 BPS, 4, 4⟩,
   ⟨I4RD4 BPS, 4, 4⟩, ⟨I4VR4 BPS, 4, 4⟩, ⟨I4LD4 BPS, 4, 4⟩, ⟨I4VL4 BPS, 4, 4⟩,
   ⟨I4HD4 BPS, 4, 4⟩, ⟨I4HU4 BPS, 4, 4⟩, ⟨I4TMP BPS, 4, 4⟩]

/-- The blocks of a sample area (`yuv_in`, `yuv_out`, `yuv_out2`): the 16x16 luma block
and the two 8x8 chroma blocks. -/
def yuvBlocks : List Block :=
  [⟨Y_OFF_ENC, 16, 16⟩, ⟨U_OFF_ENC, 8, 8⟩, ⟨V_OFF_ENC, 8, 8⟩]

/-! ## The threaded build, step by step

The two threads of the threaded build, interleaved one step at a time.  The main thread
makes a sequence of calls of `Launch`, `Sync` and `End` on a worker that `Reset` has brought
up; the worker thread runs `ThreadLoop`.  A step is one call of a `pthread` function, one
test or store of `worker->status`, or one call of `Execute`; tests of local variables are
taken together with the step before them.  The scheduler picks the thread that moves; a
thread that cannot move (the mutex is taken, it is blocked in `pthread_cond_wait`, the
thread to join has not returned) stays where it is.  A thread blocked in
`pthread_cond_wait` is woken by a `pthread_cond_signal` of the other thread, and may also
wake up spuriously. -/

/-- The two threads. -/
inductive Tid
  | main
  | worker
  deriving DecidableEq, Repr, Fintype

/-- The calls the main thread makes. -/
inductive Call
  | Launch
  | Sync
  | End
  deriving DecidableEq, Repr, Fintype

/-- The status a call hands to `ChangeState`: `Launch` hands `WORK`, `Sync` hands `OK`,
`End` hands `NOT_OK`. -/
def Call.new_status : Call → WebPWorkerStatus
  | .Launch => .WORK
  | .Sync => .OK
  | .End => .NOT_OK

/-- The statement the main thread is about to execute. -/
inductive MainPc
  /-- Between two calls. -/
  | idle
  /-- In `ChangeState`: `pthread_mutex_lock(&impl->mutex)`. -/
  | cs_lock
  /-- In `ChangeState`: `if (worker->status >= OK)`. -/
  | cs_ge
  /-- In `ChangeState`: `while (worker->status != OK)`. -/
  | cs_loop
  /-- In `ChangeState`: the call `pthread_cond_wait(&impl->condition, &impl->mutex)`. -/
  | cs_cond_wait
  /-- Inside `pthread_cond_wait`: the mutex is released and the thread is blocked. -/
  | cs_blocked
  /-- Inside `pthread_cond_wait`: woken, the thread takes the mutex again. -/
  | cs_relock
  /-- In `ChangeState`: `worker->status = new_status` (after `if (new_status != OK)`). -/
  | cs_assign
  /-- In `ChangeState`: the `pthread_mutex_unlock` that follows the assignment. -/
  | cs_unlock_early
  /-- In `ChangeState`: `pthread_cond_signal(&impl->condition); return;`. -/
  | cs_signal
  /-- In `ChangeState`: the last `pthread_mutex_unlock`. -/
  | cs_unlock
  /-- In `Sync`: `assert(worker->status <= OK); return !worker->had_error;`. -/
  | sync_assert
  /-- In `End`: `pthread_join(impl->thread, NULL)`. -/
  | end_join
  /-- In `End`: the mutex and the condition are destroyed, `impl` is freed and set to `NULL`. -/
  | end_free
  /-- In `End`: `assert(worker->status == NOT_OK)`. -/
  | end_assert
  /-- An assertion has failed. -/
  | aborted
  deriving DecidableEq, Repr, Fintype

/-- The statement the worker thread is about to execute in `ThreadLoop`. -/
inductive ThreadPc
  /-- The head of `while (!done)`: `pthread_mutex_lock(&impl->mutex)`. -/
  | lock
  /-- The test of `while (worker->status == OK)`. -/
  | test
  /-- The call `pthread_cond_wait(&impl->condition, &impl->mutex)`. -/
  | cond_wait
  /-- Inside `pthread_cond_wait`: the mutex is released and the thread is blocked. -/
  | blocked
  /-- Inside `pthread_cond_wait`: woken, the thread takes the mutex again. -/
  | relock
  /-- The test of `if (worker->status == WORK)`. -/
  | is_work
  /-- Inside `WebPGetWorkerInterface()->Execute(worker)`: the hook is running. -/
  | exec
  /-- The store `worker->status = OK`. -/
  | set_ok
  /-- The test of `else if (worker->status == NOT_OK)`, followed by `done = 1`. -/
  | is_not_ok
  /-- The call `pthread_mutex_unlock(&impl->mutex)`. -/
  | unlock
  /-- The call `pthread_cond_signal(&impl->condition)`, the end of one round of the loop. -/
  | signal
  /-- The thread has returned from `ThreadLoop`. -/
  | exited
  deriving DecidableEq, Repr, Fintype

/-- The main thread is between its `pthread_mutex_lock` and its `pthread_mutex_unlock`, and
not inside `pthread_cond_wait`: it owns the mutex. -/
def MainPc.holds : MainPc → Bool
  | .cs_ge => true
  | .cs_loop => true
  | .cs_cond_wait => true
  | .cs_assign => true
  | .cs_unlock_early => true
  | .cs_unlock => true
  | _ => false

/-- The main thread is between its `pthread_mutex_lock` and its `pthread_mutex_unlock`. -/
def MainPc.locked : MainPc → Bool
  | .cs_blocked => true
  | .cs_relock => true
  | p => p.holds

/-- The worker thread is between its `pthread_mutex_lock` and its `pthread_mutex_unlock`,
and not inside `pthread_cond_wait`: it owns the mutex. -/
def ThreadPc.holds : ThreadPc → Bool
  | .test => true
  | .cond_wait => true
  | .is_work => true
  | .exec => true
  | .set_ok => true
  | .is_not_ok => true
  | .unlock => true
  | _ => false

/-- The worker thread is between its `pthread_mutex_lock` and its `pthread_mutex_unlock`. -/
def ThreadPc.locked : ThreadPc → Bool
  | .blocked => true
  | .relock => true
  | p => p.holds

/-- The state of the two threads and of what they share. -/
structure Conc where
  /-- The worker, the history of its hook and the count of the waits of the main thread. -/
  sys : Sys
  /-- The owner of `impl->mutex`, if it is taken. -/
  mutex : Option Tid
  /-- Where the main thread stands. -/
  mpc : MainPc
  /-- The call the main thread is in, or has made last. -/
  call : Call
  /-- The calls the main thread has still to make. -/
  todo : List Call
  /-- Where the worker thread stands. -/
  tpc : ThreadPc
  /-- The local variable `done` of `ThreadLoop`. -/
  done : Bool
  /-- The number of calls of `Launch` the main thread has made while `impl` was not `NULL`. -/
  asked : Nat
  /-- The number of times `ChangeState` has stored `WORK`: the tasks launched. -/
  launched : Nat
  /-- The number of calls of `Execute` that `ThreadLoop` has begun. -/
  begun : Nat
  /-- The number of calls of `Execute` that have returned to `ThreadLoop`. -/
  completed : Nat
  /-- The calls of `pthread_mutex_lock` and of `pthread_mutex_unlock` by the main thread. -/
  mlocks : Nat
  munlocks : Nat
  /-- The calls of `pthread_mutex_lock` and of `pthread_mutex_unlock` by the worker thread. -/
  tlocks : Nat
  tunlocks : Nat
  /-- The values `Sync` has returned. -/
  returns : List Int

/-- Where the main thread goes on when `ChangeState` returns. -/
def Call.after : Call → MainPc
  | .Launch => .idle
  | .Sync => .sync_assert
  | .End => .end_join

/-- Where the main thread starts a call: `ChangeState` returns at once when `impl` is
`NULL`, and `End` skips its body then. -/
def Call.enter (c : Call) (impl : Option Nat) : MainPc :=
  match impl, c with
  | some _, _ => .cs_lock
  | none, .Launch => .idle
  | none, .Sync => .sync_assert
  | none, .End => .end_assert

/-- The store `worker->status = v`. -/
def Conc.setStatus (s : Conc) (v : WebPWorkerStatus) : Conc :=
  { s with sys := { s.sys with worker := { s.sys.worker with status := v } } }

/-- One step of the main thread; `none` when it cannot move. -/
def Conc.mainStep (s : Conc) : Option Conc :=
  match s.mpc with
  | .idle =>
    match s.todo with
    | [] => none
    | c :: rest =>
      some { s with
        call := c, todo := rest, mpc := c.enter s.sys.worker.impl
        asked := s.asked + (if c = .Launch ∧ s.sys.worker.impl ≠ none then 1 else 0) }
  | .cs_lock =>
    if s.mutex = none then
      some { s with mutex := some .main, mlocks := s.mlocks + 1, mpc := .cs_ge }
    else none
  | .cs_ge =>
    some { s with mpc :=
      if WebPWorkerStatus.OK.toNat ≤ s.sys.worker.status.toNat then .cs_loop else .cs_unlock }
  | .cs_loop =>
    some { s with mpc :=
      if s.sys.worker.status ≠ .OK then .cs_cond_wait
      else if s.call.new_status ≠ .OK then .cs_assign else .cs_unlock }
  | .cs_cond_wait =>
    some { s with mutex := none, mpc := .cs_blocked,
                  sys := { s.sys with waits := s.sys.waits + 1 } }
  | .cs_blocked => none
  | .cs_relock =>
    if s.mutex = none then some { s with mutex := some .main, mpc := .cs_loop } else none
  | .cs_assign =>
    some { s.setStatus s.call.new_status with
      launched := s.launched + (if s.call.new_status = .WORK then 1 else 0)
      mpc := .cs_unlock_early }
  | .cs_unlock_early =>
    some { s with mutex := none, munlocks := s.munlocks + 1, mpc := .cs_signal }
  | .cs_signal =>
    some { s with tpc := if s.tpc = .blocked then .relock else s.tpc, mpc := s.call.after }
  | .cs_unlock =>
    some { s with mutex := none, munlocks := s.munlocks + 1, mpc := s.call.after }
  | .sync_assert =>
    if s.sys.worker.status.toNat ≤ WebPWorkerStatus.OK.toNat then
      some { s with returns := s.returns ++ [if s.sys.worker.had_error = 0 then 1 else 0],
                    mpc := .idle }
    else some { s with mpc := .aborted }
  | .end_join => if s.tpc = .exited then some { s with mpc := .end_free } else none
  | .end_free =>
    some { s with sys := { s.sys with worker := { s.sys.worker with impl := none } },
                  mpc := .end_assert }
  | .end_assert =>
    some { s with mpc := if s.sys.worker.status = .NOT_OK then .idle else .aborted }
  | .aborted => none

/-- One step of the worker thread; `none` when it cannot move. -/
def Conc.workerStep (s : Conc) : Option Conc :=
  match s.tpc with
  | .lock =>
    if s.mutex = none then
      some { s with mutex := some .worker, tlocks := s.tlocks + 1, tpc := .test }
    else none
  | .test => some { s with tpc := if s.sys.worker.status = .OK then .cond_wait else .is_work }
  | .cond_wait => some { s with mutex := none, tpc := .blocked }
  | .blocked => none
  | .relock =>
    if s.mutex = none then some { s with mutex := some .worker, tpc := .test } else none
  | .is_work =>
    if s.sys.worker.status = .WORK then some { s with begun := s.begun + 1, tpc := .exec }
    else some { s with tpc := .is_not_ok }
  | .exec => some { s with sys := Execute s.sys, completed := s.completed + 1, tpc := .set_ok }
  | .set_ok => some { s.setStatus .OK with tpc := .unlock }
  | .is_not_ok =>
    some { s with done := if s.sys.worker.status = .NOT_OK then true else s.done,
                  tpc := .unlock }
  | .unlock => some { s with mutex := none, tunlocks := s.tunlocks + 1, tpc := .signal }
  | .signal =>
    some { s with
      mpc := if s.mpc = .cs_blocked then .cs_relock else s.mpc
      tpc := if s.done then .exited else .lock
      sys := if s.done then { s.sys with thread := false } else s.sys }
  | .exited => none

/-- What the scheduler can do: let a thread take its next step, or wake a thread that is
blocked in `pthread_cond_wait` without any signal. -/
inductive Move
  | run (t : Tid)
  | spurious (t : Tid)
  deriving DecidableEq, Repr

/-- The effect of a move; `none` when the move is not possible. -/
def Conc.move (m : Move) (s : Conc) : Option Conc :=
  match m with
  | .run .main => s.mainStep
  | .run .worker => s.workerStep
  | .spurious .main => if s.mpc = .cs_blocked then some { s with mpc := .cs_relock } else none
  | .spurious .worker => if s.tpc = .blocked then some { s with tpc := .relock } else none

/-- The effect of a schedule: the moves are made in order, those not possible are passed
over. -/
def Conc.exec : List Move → Conc → Conc
  | [], s => s
  | m :: ms, s => Conc.exec ms ((s.move m).getD s)

/-- The worker as a successful `Reset` leaves it after `Init` and the assignment of the hook
and its arguments. -/
def freshReady (hook : Option WebPWorkerHook) (d1 d2 : Nat) : Sys :=
  { worker := { impl := some 1, status := .OK, hook := hook, data1 := d1, data2 := d2,
                had_error := 0 }
    thread := true, trace := [], allocs := 1, spawns := 1, waits := 0 }

/-- The two threads right after a successful `Reset`: the mutex is free, the worker thread
is at the head of `ThreadLoop`, the main thread has the calls `todo` to make. -/
def Conc.start (hook : Option WebPWorkerHook) (d1 d2 : Nat) (todo : List Call) : Conc :=
  { sys := freshReady hook d1 d2, mutex := none, mpc := .idle, call := .Sync, todo := todo,
    tpc := .lock, done := false, asked := 0, launched := 0, begun := 0, completed := 0,
    mlocks := 0, munlocks := 0, tlocks := 0, tunlocks := 0, returns := [] }

/-- The main thread has made all its calls. -/
def Conc.finished (s : Conc) : Bool := decide (s.mpc = .idle) && s.todo.isEmpty
/-! ### The control state and its invariant -/

/-- What the main thread knows about the status and its call, statement by statement. -/
def MainPc.statusOk : MainPc → Call → WebPWorkerStatus → Bool
  | .idle, _, _ => true
  | .cs_lock, _, st => decide (st ≠ .NOT_OK)
  | .cs_ge, _, st => decide (st ≠ .NOT_OK)
  | .cs_loop, _, st => decide (st ≠ .NOT_OK)
  | .cs_cond_wait, _, st => decide (st = .WORK)
  | .cs_blocked, _, st => decide (st ≠ .NOT_OK)
  | .cs_relock, _, st => decide (st ≠ .NOT_OK)
  | .cs_assign, c, st => decide (st = .OK) && decide (c ≠ .Sync)
  | .cs_unlock_early, c, st => decide (st = c.new_status) && decide (c ≠ .Sync)
  | .cs_signal, c, st => decide (c ≠ .Sync) && (decide (c ≠ .End) || decide (st = .NOT_OK))
  | .cs_unlock, c, st => decide (c = .Sync) && decide (st = .OK)
  | .sync_assert, c, st => decide (c = .Sync) && decide (st ≠ .WORK)
  | .end_join, c, st => decide (c = .End) && decide (st = .NOT_OK)
  | .end_free, c, st => decide (c = .End) && decide (st = .NOT_OK)
  | .end_assert, c, st => decide (c = .End) && decide (st = .NOT_OK)
  | .aborted, _, _ => false

/-- What the worker thread knows about the status and its variable `done`, statement by
statement. -/
def ThreadPc.statusOk : ThreadPc → Bool → WebPWorkerStatus → Bool
  | .lock, d, _ => !d
  | .test, d, _ => !d
  | .cond_wait, d, st => !d && decide (st = .OK)
  | .blocked, d, _ => !d
  | .relock, d, _ => !d
  | .is_work, d, st => !d && decide (st ≠ .OK)
  | .exec, d, st => !d && decide (st = .WORK)
  | .set_ok, d, st => !d && decide (st = .WORK)
  | .is_not_ok, d, st => !d && decide (st = .NOT_OK)
  | .unlock, d, st => if d then decide (st = .NOT_OK) else decide (st = .OK)
  | .signal, d, st => !d || decide (st = .NOT_OK)
  | .exited, d, st => d && decide (st = .NOT_OK)

/-- The main thread is in `End`, past the store of `NOT_OK` and before `impl` is freed. -/
def MainPc.ending : MainPc → Bool
  | .cs_unlock_early => true
  | .cs_signal => true
  | .end_join => true
  | .end_free => true
  | _ => false

/-- The main thread is in `ChangeState` and has not yet reached the store of the new
status. -/
def MainPc.pending : MainPc → Bool
  | .cs_lock => true
  | .cs_ge => true
  | .cs_loop => true
  | .cs_cond_wait => true
  | .cs_blocked => true
  | .cs_relock => true
  | .cs_assign => true
  | _ => false

/-- The part of the state that decides which steps are possible: where the two threads
stand, the status, the variable `done`, the call being made, the owner of the mutex, and
whether `impl` is `NULL`. -/
structure View where
  mpc : MainPc
  tpc : ThreadPc
  status : WebPWorkerStatus
  done : Bool
  call : Call
  mutex : Option Tid
  freed : Bool
  deriving DecidableEq, Repr

/-- The control part of a state. -/
def Conc.view (s : Conc) : View :=
  { mpc := s.mpc, tpc := s.tpc, status := s.sys.worker.status, done := s.done,
    call := s.call, mutex := s.mutex, freed := s.sys.worker.impl.isNone }

/-- The step of the main thread, on the control part; `next` is the next call to make. -/
def View.mainStep (next : Option Call) (v : View) : Option View :=
  match v.mpc with
  | .idle =>
    match next with
    | none => none
    | some c =>
      some { v with call := c, mpc := c.enter (if v.freed then none else some 0) }
  | .cs_lock =>
    if v.mutex = none then some { v with mutex := some .main, mpc := .cs_ge } else none
  | .cs_ge =>
    some { v with mpc :=
      if WebPWorkerStatus.OK.toNat ≤ v.status.toNat then .cs_loop else .cs_unlock }
  | .cs_loop =>
    some { v with mpc :=
      if v.status ≠ .OK then .cs_cond_wait
      else if v.call.new_status ≠ .OK then .cs_assign else .cs_unlock }
  | .cs_cond_wait => some { v with mutex := none, mpc := .cs_blocked }
  | .cs_blocked => none
  | .cs_relock =>
    if v.mutex = none then some { v with mutex := some .main, mpc := .cs_loop } else none
  | .cs_assign => some { v with status := v.call.new_status, mpc := .cs_unlock_early }
  | .cs_unlock_early => some { v with mutex := none, mpc := .cs_signal }
  | .cs_signal =>
    some { v with tpc := if v.tpc = .blocked then .relock else v.tpc, mpc := v.call.after }
  | .cs_unlock => some { v with mutex := none, mpc := v.call.after }
  | .sync_assert =>
    some { v with mpc :=
      if v.status.toNat ≤ WebPWorkerStatus.OK.toNat then .idle else .aborted }
  | .end_join => if v.tpc = .exited then some { v with mpc := .end_free } else none
  | .end_free => some { v with freed := true, mpc := .end_assert }
  | .end_assert => some { v with mpc := if v.status = .NOT_OK then .idle else .aborted }
  | .aborted => none

/-- The step of the worker thread, on the control part. -/
def View.workerStep (v : View) : Option View :=
  match v.tpc with
  | .lock =>
    if v.mutex = none then some { v with mutex := some .worker, tpc := .test } else none
  | .test => some { v with tpc := if v.status = .OK then .cond_wait else .is_work }
  | .cond_wait => some { v with mutex := none, tpc := .blocked }
  | .blocked => none
  | .relock =>
    if v.mutex = none then some { v with mutex := some .worker, tpc := .test } else none
  | .is_work => some { v with tpc := if v.status = .WORK then .exec else .is_not_ok }
  | .exec => some { v with tpc := .set_ok }
  | .set_ok => some { v with status := .OK, tpc := .unlock }
  | .is_not_ok =>
    some { v with done := if v.status = .NOT_OK then true else v.done, tpc := .unlock }
  | .unlock => some { v with mutex := none, tpc := .signal }
  | .signal =>
    some { v with
      mpc := if v.mpc = .cs_blocked then .cs_relock else v.mpc
      tpc := if v.done then .exited else .lock }
  | .exited => none

/-- The effect of a move on the control part. -/
def View.move (next : Option Call) (m : Move) (v : View) : Option View :=
  match m with
  | .run .main => v.mainStep next
  | .run .worker => v.workerStep
  | .spurious .main => if v.mpc = .cs_blocked then some { v with mpc := .cs_relock } else none
  | .spurious .worker => if v.tpc = .blocked then some { v with tpc := .relock } else none

/-- The facts about the control part that hold in every state the two threads can reach:
who owns the mutex, what each thread knows about the status where it stands, what holds
once `impl` is freed, and that a blocked thread is never left without the signal it waits
for. -/
def View.ok (v : View) : Bool :=
  (decide (v.mutex = some .main) == v.mpc.holds) &&
  (decide (v.mutex = some .worker) == v.tpc.holds) &&
  v.mpc.statusOk v.call v.status &&
  v.tpc.statusOk v.done v.status &&
  (!v.freed || (decide (v.status = .NOT_OK) && decide (v.tpc = .exited) &&
    (decide (v.mpc = .idle) || decide (v.mpc = .sync_assert) || decide (v.mpc = .end_assert)))) &&
  (v.freed || ((decide (v.status = .NOT_OK) == (decide (v.call = .End) && v.mpc.ending)) &&
    decide (v.mpc ≠ .end_assert))) &&
  (decide (v.mpc ≠ .end_free) || decide (v.tpc = .exited)) &&
  (decide (v.mpc ≠ .idle) || decide (v.call ≠ .End) || v.freed) &&
  (decide (v.tpc ≠ .blocked) || decide (v.status = .OK) ||
    decide (v.mpc = .cs_unlock_early) || decide (v.mpc = .cs_signal)) &&
  (decide (v.mpc ≠ .cs_blocked) || decide (v.status ≠ .OK) ||
    decide (v.tpc = .unlock) || decide (v.tpc = .signal))

/-- One turn of each thread, the worker thread first; a thread that cannot move stays where
it is, and the main thread makes no new call. -/
def View.turn (v : View) : View :=
  let v1 := (v.workerStep).getD v
  (v1.mainStep none).getD v1

/-- The task of the worker fails: the hook is set and returns zero on the two arguments. -/
def taskFails (hook : Option WebPWorkerHook) (d1 d2 : Nat) : Bool :=
  match hook with
  | none => false
  | some h => decide (h d1 d2 = 0)

/-- The hook invocations made by `n` executions of the task. -/
def taskTrace (hook : Option WebPWorkerHook) (d1 d2 n : Nat) : List HookCall :=
  match hook with
  | none => []
  | some h => List.replicate n ⟨h, d1, d2⟩

/-- The invariant of the two threads, for a worker whose hook and arguments are `hook`, `d1`
and `d2`: the control part satisfies `View.ok`, the calls of lock and unlock balance, and
the counts of tasks asked for, launched, begun and completed fit the status. -/
structure Inv (hook : Option WebPWorkerHook) (d1 d2 : Nat) (s : Conc) : Prop where
  hook_eq : s.sys.worker.hook = hook
  data1_eq : s.sys.worker.data1 = d1
  data2_eq : s.sys.worker.data2 = d2
  ctrl : s.view.ok = true
  main_count : s.mlocks = s.munlocks + (if s.mpc.locked then 1 else 0)
  worker_count : s.tlocks = s.tunlocks + (if s.tpc.locked then 1 else 0)
  thread_alive : s.sys.thread = decide (s.tpc ≠ .exited)
  asked_eq : s.asked = s.launched + (if s.call = .Launch ∧ s.mpc.pending = true then 1 else 0)
  in_flight : s.launched =
    s.completed + (if s.sys.worker.status = .WORK ∧ s.tpc ≠ .set_ok then 1 else 0)
  running : s.begun = s.completed + (if s.tpc = .exec then 1 else 0)
  trace_eq : s.sys.trace = taskTrace hook d1 d2 s.completed
  error_eq : s.sys.worker.had_error =
    if 0 < s.completed ∧ taskFails hook d1 d2 = true then 1 else 0

/-- The state of the two threads after the schedule `sched`, for a worker that `Reset` has
brought up with the hook `hook` and the arguments `d1` and `d2`, and a main thread that has
the calls `todo` to make. -/
def Conc.reach (hook : Option WebPWorkerHook) (d1 d2 : Nat) (todo : List Call)
    (sched : List Move) : Conc :=
  Conc.exec sched (Conc.start hook d1 d2 todo)

deriving instance Fintype for WebPWorkerStatus

/-- Every move from a control state that satisfies the invariant leads to one that does. -/
def View.closed (v : View) : Bool :=
  !v.ok ||
    [none, some Call.Launch, some Call.Sync, some Call.End].all fun next =>
      [Move.run .main, Move.run .worker, Move.spurious .main, Move.spurious .worker].all
        fun m =>
          match v.move next m with
          | none => true
          | some v2 => v2.ok
/-- A schedule for the calls `Launch`, `End` in which `End` finds the task launched and not
yet run: the main thread goes through `Launch` and into `End` up to `pthread_cond_wait`,
the worker thread runs the task and signals, the main thread stores `NOT_OK`, the worker
thread returns, the main thread joins it and frees `impl`. -/
def endRun : List Move :=
  List.replicate 12 (.run .main) ++ List.replicate 7 (.run .worker) ++
    List.replicate 5 (.run .main) ++ List.replicate 6 (.run .worker) ++
    List.replicate 3 (.run .main)

/-- A schedule for the calls `Launch`, `Sync` in which the main thread, blocked in the
`pthread_cond_wait` of `Sync` while the task has not yet run, wakes up spuriously. -/
def spuriousRun : List Move :=
  List.replicate 12 (.run .main) ++ [.spurious .main]

/-! ## Auxiliary facts -/

/-- A call `Returns` with `P` exactly when it equals some `.ok a` with `P a`. -/
theorem returns_iff {α : Type} (r : Except Fault α) (P : α → Prop) :
    Returns r P ↔ ∃ a, r = .ok a ∧ P a := by
  cases r <;> simp [Returns]

/-- The same, for a call that returns a pair. -/
theorem returns_pair {α β : Type} (r : Except Fault (α × β)) (P : α × β → Prop)
    (h : Returns r P) : ∃ a b, r = .ok (a, b) ∧ P (a, b) := by
  rcases r with e | ⟨a, b⟩
  · simp [Returns] at h
  · exact ⟨a, b, rfl, h⟩

/-- The same, in one direction. -/
theorem returns_one {α : Type} (r : Except Fault α) (P : α → Prop)
    (h : Returns r P) : ∃ a, r = .ok a ∧ P a := (returns_iff r P).mp h

/-- Bitwise or with zero changes nothing. -/
theorem lor_zero_right (x : Int) : Int.lor x 0 = x := by
  cases x with
  | ofNat m => show Int.ofNat (m ||| 0) = _; simp
  | negSucc m => show Int.negSucc (Nat.ldiff m 0) = _; simp [Nat.ldiff]

/-- Bitwise or with one is never zero. -/
theorem lor_one_ne_zero (x : Int) : Int.lor x 1 ≠ 0 := by
  intro h
  have h0 : Int.testBit (Int.lor x 1) 0 = Int.testBit 0 0 := by rw [h]
  have h1 : Int.testBit 1 0 = true := by decide
  have h2 : Int.testBit 0 0 = false := by decide
  rw [Int.testBit_lor, h1, h2] at h0
  simp at h0

/-- Bitwise or of zero and one. -/
theorem lor_zero_one : Int.lor 0 1 = 1 := by decide

/-- After its turn the worker thread has nothing left to do. -/
theorem ThreadLoop_idem (s : Sys) : ThreadLoop (ThreadLoop s) = ThreadLoop s := by
  obtain ⟨⟨impl, status, hook, d1, d2, he⟩, thread, trace, allocs, spawns, waits⟩ := s
  cases thread <;> cases status <;> simp [ThreadLoop, Execute]

/-- A turn of the worker thread at the head of a sequence. -/
theorem run_yield (use_thread : Bool) (ops : List Op) (s : Sys) :
    run use_thread (Op.yield :: ops) s
      = run use_thread ops (if use_thread then ThreadLoop s else s) := by
  simp only [run, step]
  rcases run use_thread ops (if use_thread then ThreadLoop s else s) with e | ⟨o, t⟩ <;> rfl

/-- Several turns of the worker thread in a row amount to one. -/
theorem run_yields (use_thread : Bool) (n : Nat) (ops : List Op) (s : Sys) :
    run use_thread (yields n ++ ops) s = run use_thread ops (turns use_thread n s) := by
  induction n generalizing s with
  | zero => simp [yields, turns]
  | succ k ih =>
    have e : yields (k + 1) ++ ops = Op.yield :: (yields k ++ ops) := by
      simp [yields, List.replicate_succ]
    rw [e, run_yield, ih]
    cases use_thread
    · simp [turns]
    · cases k
      · simp [turns]
      · simp [turns, ThreadLoop_idem]

/-- A sequence whose first operation returns. -/
theorem run_cons_ok (use_thread : Bool) (op : Op) (ops : List Op) (s s1 : Sys)
    (o1 : List Obs) (h : step use_thread op s = .ok (o1, s1)) :
    run use_thread (op :: ops) s =
      match run use_thread ops s1 with
      | .error e => .error e
      | .ok (o2, s2) => .ok (o1 ++ o2, s2) := by
  simp only [run, h]

/-- An invariant of the single operations is an invariant of every sequence, and no operation of
the sequence fails to return. -/
theorem run_inv (use_thread : Bool) (A : Op → Prop) (I : Sys → Prop) (Q : Obs → Prop)
    (hstep : ∀ op s, A op → I s →
      Returns (step use_thread op s) (fun p => (∀ o ∈ p.1, Q o) ∧ I p.2)) :
    ∀ ops s, (∀ op ∈ ops, A op) → I s →
      Returns (run use_thread ops s) (fun p => (∀ o ∈ p.1, Q o) ∧ I p.2) := by
  intro ops
  induction ops with
  | nil => intro s _ hI; simp [run, Returns, hI]
  | cons op ops ih =>
    intro s hA hI
    have h1 := hstep op s (hA op (List.mem_cons_self _ _)) hI
    rcases hs : step use_thread op s with e | ⟨o1, s1⟩
    · simp [hs, Returns] at h1
    · simp only [hs, Returns] at h1
      have h2 := ih s1 (fun op hop => hA op (List.mem_cons_of_mem _ hop)) h1.2
      rw [run_cons_ok use_thread op ops s s1 o1 hs]
      rcases hr : run use_thread ops s1 with e | ⟨o2, s2⟩
      · simp [hr, Returns] at h2
      · simp only [hr, Returns] at h2
        simp only [Returns]
        refine ⟨?_, h2.2⟩
        intro o ho
        rcases List.mem_append.mp ho with h | h
        · exact h1.1 o h
        · exact h2.1 o h

/-- A freshly initialised worker is well formed, in both builds. -/
theorem boot_wf (use_thread : Bool) (w : WebPWorker) : (boot w).wf use_thread := by
  cases use_thread <;> simp [Sys.wf, boot, Init]

/-- Every operation returns on a well-formed worker and keeps it well formed. -/
theorem step_wf (use_thread : Bool) (op : Op) (s : Sys) (h : s.wf use_thread) :
    Returns (step use_thread op s) (fun p => p.2.wf use_thread) := by
  obtain ⟨⟨impl, status, hook, d1, d2, he⟩, thread, trace, allocs, spawns, waits⟩ := s
  cases use_thread
  · simp only [Sys.wf] at h
    simp at h
    obtain ⟨h1, h2, h3⟩ := h
    subst h1 h3
    cases op <;> cases status <;> cases hook <;>
      simp_all [step, Sys.wf, Reset, ResetReturn, ResetError, Sync, Launch, End, Execute,
        WebPWorkerStatus.toNat, ThreadLoop, Returns]
  · simp only [Sys.wf] at h
    simp at h
    rcases h with ⟨h1, h2, h3⟩ | ⟨h1, h2, h3⟩
    · subst h1 h2 h3
      cases op <;> cases hook <;>
      simp [step, Sys.wf, Reset, ResetReturn, ResetError, Sync, Launch, End, Execute,
        WebPWorkerStatus.toNat, ThreadLoop, Returns, ChangeState, waitUntilOK, pthread_join]
      all_goals (split_ifs <;> simp)
    · subst h3
      cases impl with
      | none => exact absurd rfl h1
      | some i =>
        clear h1
        cases status with
        | NOT_OK => exact absurd rfl h2
        | OK =>
          cases op with
          | Reset env pre =>
            cases pre <;> cases hook <;>
            simp [step, Sys.wf, Reset, ResetReturn, ResetError, Sync, Launch, End, Execute,
              WebPWorkerStatus.toNat, ThreadLoop, Returns, ChangeState, waitUntilOK, pthread_join]
          | _ =>
            cases hook <;>
            simp [step, Sys.wf, Reset, ResetReturn, ResetError, Sync, Launch, End, Execute,
              WebPWorkerStatus.toNat, ThreadLoop, Returns, ChangeState, waitUntilOK, pthread_join]
        | WORK =>
          cases op with
          | Reset env pre =>
            cases pre <;> cases hook <;>
            simp [step, Sys.wf, Reset, ResetReturn, ResetError, Sync, Launch, End, Execute,
              WebPWorkerStatus.toNat, ThreadLoop, Returns, ChangeState, waitUntilOK, pthread_join]
          | _ =>
            cases hook <;>
            simp [step, Sys.wf, Reset, ResetReturn, ResetError, Sync, Launch, End, Execute,
              WebPWorkerStatus.toNat, ThreadLoop, Returns, ChangeState, waitUntilOK, pthread_join]

/-- Every sequence of operations returns on a well-formed worker and keeps it well formed. -/
theorem run_wf (use_thread : Bool) (ops : List Op) (s : Sys) (hwf : s.wf use_thread) :
    Returns (run use_thread ops s) (fun p => p.2.wf use_thread) := by
  have p := run_inv use_thread (fun _ => True) (fun s => s.wf use_thread) (fun _ => True)
    (fun op s _ hI => by
      have := step_wf use_thread op s hI
      rcases hs : step use_thread op s with e | ⟨o, t⟩
      · simp [hs, Returns] at this
      · simp only [hs, Returns] at this
        exact ⟨fun _ _ => trivial, this⟩)
    ops s (fun _ _ => trivial) hwf
  rcases hr : run use_thread ops s with e | ⟨o, t⟩
  · simp [hr, Returns] at p
  · simp only [hr, Returns] at p
    exact p.2

/-- What `Execute` does to the history and to the error flag. -/
theorem Execute_trace_error (s : Sys) :
    (s.worker.hook = none ∧ Execute s = s) ∨
    ∃ h, s.worker.hook = some h ∧
      (Execute s).trace = s.trace ++ [⟨h, s.worker.data1, s.worker.data2⟩] ∧
      (Execute s).worker.had_error =
        Int.lor s.worker.had_error (if h s.worker.data1 s.worker.data2 = 0 then 1 else 0) := by
  obtain ⟨⟨impl, status, hook, d1, d2, he⟩, thread, trace, allocs, spawns, waits⟩ := s
  cases hook <;> simp [Execute]

/-- The function `Execute` never clears the error flag. -/
theorem Execute_sticky (s : Sys) (h : s.worker.had_error ≠ 0) :
    (Execute s).worker.had_error ≠ 0 := by
  rcases Execute_trace_error s with ⟨_, e⟩ | ⟨f, _, _, e⟩
  · rw [e]; exact h
  · rw [e]
    split_ifs
    · exact lor_one_ne_zero _
    · rw [lor_zero_right]; exact h


/-- An operation other than `Reset` changes the history and the error flag by at most one
`Execute`, and a `Sync` returns the negation of the error flag it leaves. -/
theorem step_one_execute (use_thread : Bool) (op : Op) (s : Sys) (h : s.wf use_thread)
    (hop : op.isReset = false) :
    Returns (step use_thread op s) (fun p =>
      ((p.2.trace = s.trace ∧ p.2.worker.had_error = s.worker.had_error) ∨
        (p.2.trace = (Execute s).trace ∧
          p.2.worker.had_error = (Execute s).worker.had_error)) ∧
      ∀ r st he tr, Obs.sync r st he tr ∈ p.1 →
        he = p.2.worker.had_error ∧ r = if he = 0 then 1 else 0) := by
  obtain ⟨⟨impl, status, hook, d1, d2, he⟩, thread, trace, allocs, spawns, waits⟩ := s
  cases use_thread
  · simp only [Sys.wf] at h
    simp at h
    obtain ⟨h1, h2, h3⟩ := h
    subst h1 h3
    cases op <;> cases status <;> cases hook <;>
      simp_all [step, Sys.wf, Reset, ResetReturn, ResetError, Sync, Launch, End, Execute,
        WebPWorkerStatus.toNat, ThreadLoop, Returns, Op.isReset]
  · simp only [Sys.wf] at h
    simp at h
    rcases h with ⟨h1, h2, h3⟩ | ⟨h1, h2, h3⟩
    · subst h1 h2 h3
      cases op <;> cases hook <;>
      simp_all [step, Sys.wf, Reset, ResetReturn, ResetError, Sync, Launch, End, Execute,
        WebPWorkerStatus.toNat, ThreadLoop, Returns, ChangeState, waitUntilOK, pthread_join, Op.isReset]
    · subst h3
      cases impl with
      | none => exact absurd rfl h1
      | some i =>
        clear h1
        cases status with
        | NOT_OK => exact absurd rfl h2
        | OK =>
          cases op <;> cases hook <;>
            simp_all [step, Sys.wf, Reset, ResetReturn, ResetError, Sync, Launch, End, Execute,
              WebPWorkerStatus.toNat, ThreadLoop, Returns, ChangeState, waitUntilOK, pthread_join, Op.isReset]
        | WORK =>
          cases op <;> cases hook <;>
            simp_all [step, Sys.wf, Reset, ResetReturn, ResetError, Sync, Launch, End, Execute,
              WebPWorkerStatus.toNat, ThreadLoop, Returns, ChangeState, waitUntilOK, pthread_join, Op.isReset]

/-- On a well-formed worker, a `Reset` that returns non-zero leaves the status `OK`, allocates
nothing unless the status was `NOT_OK`, and a second `Reset` then returns 1 and changes
nothing but the error flag, which it sets to zero. -/
theorem Reset_twice (use_thread : Bool) (env env2 : SetupEnv) (preempt preempt2 : Bool)
    (s : Sys) (hwf : s.wf use_thread) :
    Returns (Reset use_thread env preempt s) (fun p =>
      (p.1 ≠ 0 → p.2.worker.status = .OK) ∧
      (s.worker.status ≠ .NOT_OK →
        p.2.allocs = s.allocs ∧ p.2.spawns = s.spawns ∧ p.2.worker.impl = s.worker.impl) ∧
      (p.1 ≠ 0 → Reset use_thread env2 preempt2 p.2 =
        .ok (1, { p.2 with worker := { p.2.worker with had_error := 0 } }))) := by
  obtain ⟨⟨impl, status, hook, d1, d2, he⟩, thread, trace, allocs, spawns, waits⟩ := s
  cases use_thread
  · simp only [Sys.wf] at hwf
    simp at hwf
    obtain ⟨h1, h2, h3⟩ := hwf
    subst h1 h3
    cases status <;> cases hook <;>
      simp_all [Reset, ResetReturn, ResetError, Sync, Execute,
        WebPWorkerStatus.toNat, ThreadLoop, Returns]
  · simp only [Sys.wf] at hwf
    simp at hwf
    rcases hwf with ⟨h1, h2, h3⟩ | ⟨h1, h2, h3⟩
    · subst h1 h2 h3
      obtain ⟨c, m, k, q⟩ := env
      by_cases hm : m = 0 <;> by_cases hk : k = 0 <;> by_cases hq : q = 0 <;>
        cases c <;> cases preempt2 <;>
        simp [Reset, ResetReturn, ResetError, WebPWorkerStatus.toNat, ThreadLoop, Returns,
          hm, hk, hq]
    · subst h3
      cases impl with
      | none => exact absurd rfl h1
      | some i =>
        clear h1
        cases status with
        | NOT_OK => exact absurd rfl h2
        | OK =>
          cases preempt <;> cases preempt2 <;> cases hook <;>
          simp [Reset, ResetReturn, ResetError, Sync, Execute,
            WebPWorkerStatus.toNat, ThreadLoop, Returns, ChangeState, waitUntilOK]
        | WORK =>
          cases preempt <;> cases preempt2 <;> cases hook <;>
          simp [Reset, ResetReturn, ResetError, Sync, Execute, hookFails,
            WebPWorkerStatus.toNat, ThreadLoop, Returns, ChangeState, waitUntilOK]

/-- Without `Launch` and `Execute` the error flag stays zero and the status never becomes
`WORK`. -/
theorem step_quiet (use_thread : Bool) (op : Op) (s : Sys)
    (hop : op.startsTask = false)
    (h : s.wf use_thread ∧ s.worker.had_error = 0 ∧ s.worker.status ≠ .WORK) :
    Returns (step use_thread op s) (fun p =>
      (∀ o ∈ p.1, ∀ r st he tr, o = Obs.sync r st he tr → r = 1) ∧
      (p.2.wf use_thread ∧ p.2.worker.had_error = 0 ∧ p.2.worker.status ≠ .WORK)) := by
  obtain ⟨hwf, he0, hst⟩ := h
  obtain ⟨⟨impl, status, hook, d1, d2, he⟩, thread, trace, allocs, spawns, waits⟩ := s
  simp at he0 hst
  subst he0
  cases use_thread
  · simp only [Sys.wf] at hwf
    simp at hwf
    obtain ⟨h1, h2, h3⟩ := hwf
    subst h1 h3
    cases op <;> cases status <;> cases hook <;>
      simp_all [step, Sys.wf, Reset, ResetReturn, ResetError, Sync, Launch, End, Execute,
        WebPWorkerStatus.toNat, ThreadLoop, Returns, Op.startsTask]
  · simp only [Sys.wf] at hwf
    simp at hwf
    rcases hwf with ⟨h1, h2, h3⟩ | ⟨h1, h2, h3⟩
    · subst h1 h2 h3
      cases op <;> cases hook <;>
      simp_all [step, Sys.wf, Reset, ResetReturn, ResetError, Sync, Launch, End, Execute,
        WebPWorkerStatus.toNat, ThreadLoop, Returns, ChangeState, waitUntilOK, pthread_join,
        Op.startsTask]
      all_goals (split_ifs <;> simp)
    · subst h3
      cases impl with
      | none => exact absurd rfl h1
      | some i =>
        clear h1
        cases status with
        | NOT_OK => exact absurd rfl h2
        | WORK => exact absurd rfl hst
        | OK =>
          cases op with
          | Reset env pre =>
            cases pre <;> cases hook <;>
            simp [step, Sys.wf, Reset, ResetReturn, ResetError, Sync, Launch, End, Execute,
              WebPWorkerStatus.toNat, ThreadLoop, Returns, ChangeState, waitUntilOK, pthread_join]
          | _ =>
            cases hook <;>
            simp_all [step, Sys.wf, Reset, ResetReturn, ResetError, Sync, Launch, End, Execute,
              WebPWorkerStatus.toNat, ThreadLoop, Returns, ChangeState, waitUntilOK, pthread_join,
              Op.startsTask]

/-- On a worker with no error and no task in flight `Sync` returns 1 and changes nothing. -/
theorem Sync_quiet (use_thread : Bool) (s : Sys)
    (h : s.wf use_thread ∧ s.worker.had_error = 0 ∧ s.worker.status ≠ .WORK) :
    Sync use_thread s = .ok (1, s) := by
  obtain ⟨hwf, he0, hst⟩ := h
  obtain ⟨⟨impl, status, hook, d1, d2, he⟩, thread, trace, allocs, spawns, waits⟩ := s
  simp at he0 hst
  subst he0
  cases use_thread
  · cases status <;> simp_all [Sync, WebPWorkerStatus.toNat]
  · cases impl <;> cases status <;>
      simp_all [Sync, WebPWorkerStatus.toNat, ChangeState, waitUntilOK, Sys.wf]

/-- On a well-formed worker `End` returns, leaves the worker idle, and is a no-op when repeated. -/
theorem End_wf (use_thread : Bool) (s : Sys) (hwf : s.wf use_thread) :
    Returns (End use_thread s) (fun t =>
      t.worker.status = .NOT_OK ∧ t.worker.impl = none ∧ t.thread = false ∧
      End use_thread t = .ok t) := by
  obtain ⟨⟨impl, status, hook, d1, d2, he⟩, thread, trace, allocs, spawns, waits⟩ := s
  cases use_thread
  · simp only [Sys.wf] at hwf
    simp at hwf
    obtain ⟨h1, h2, h3⟩ := hwf
    subst h1 h3
    simp [End, Returns]
  · simp only [Sys.wf] at hwf
    simp at hwf
    rcases hwf with ⟨h1, h2, h3⟩ | ⟨h1, h2, h3⟩
    · subst h1 h2 h3
      simp [End, Returns]
    · subst h3
      cases impl with
      | none => exact absurd rfl h1
      | some i =>
        cases status <;> cases hook <;>
          simp_all [End, Returns, ChangeState, waitUntilOK, pthread_join, ThreadLoop,
            Execute, WebPWorkerStatus.toNat]

/-- On an idle worker of the threaded build `Launch`, `Sync`, `End` and a turn of the worker
thread change nothing, and `Sync` returns 1 when the error flag is clear. -/
theorem step_failed_setup (op : Op) (t : Sys) (hop : op.isLaunchSyncEnd = true)
    (h : t.worker.impl = none ∧ t.worker.status = .NOT_OK ∧ t.thread = false ∧
      t.worker.had_error = 0) :
    Returns (step true op t) (fun p =>
      (∀ o ∈ p.1, ∀ r st he tr, o = Obs.sync r st he tr → r = 1) ∧ p.2 = t) := by
  obtain ⟨⟨impl, status, hook, d1, d2, he⟩, thread, trace, allocs, spawns, waits⟩ := t
  simp at h
  obtain ⟨h1, h2, h3, h4⟩ := h
  subst h1 h2 h3 h4
  cases op <;>
    simp_all [step, Sync, Launch, End, WebPWorkerStatus.toNat, ThreadLoop, Returns,
      ChangeState, Op.isLaunchSyncEnd]

/-- A `Reset` whose setup fails on an idle worker returns 0 and leaves the worker idle. -/
theorem Reset_failed_setup (env : SetupEnv) (preempt : Bool) (s : Sys)
    (hidle : s.worker.impl = none ∧ s.worker.status = .NOT_OK ∧ s.thread = false)
    (hfail : env.fails = true) :
    Returns (Reset true env preempt s) (fun p =>
      p.1 = 0 ∧ p.2.worker.impl = none ∧ p.2.worker.status = .NOT_OK ∧ p.2.thread = false ∧
      p.2.worker.had_error = 0 ∧ p.2.trace = s.trace ∧ p.2.spawns = s.spawns) := by
  obtain ⟨⟨impl, status, hook, d1, d2, he⟩, thread, trace, allocs, spawns, waits⟩ := s
  simp at hidle
  obtain ⟨h1, h2, h3⟩ := hidle
  subst h1 h2 h3
  obtain ⟨c, m, k, q⟩ := env
  by_cases hm : m = 0 <;> by_cases hk : k = 0 <;> by_cases hq : q = 0 <;>
    cases c <;> cases preempt <;>
    simp_all [Reset, ResetReturn, ResetError, WebPWorkerStatus.toNat, ThreadLoop,
      SetupEnv.fails, Returns]

/-- One call of a caller that keeps to the protocol: the two builds show the same observations
and stay in correspondence. -/
theorem step_sim (p q : Phase) (op : Op) (t i : Sys) (hs : Sim p t i)
    (hp : protocol p op = some q) :
    Agree q (step true op t) (step false op i) := by
  obtain ⟨⟨timpl, tstatus, thook, td1, td2, the⟩, tthread, ttrace, tallocs, tspawns, twaits⟩ := t
  obtain ⟨⟨iimpl, istatus, ihook, id1, id2, ihe⟩, ithread, itrace, iallocs, ispawns, iwaits⟩ := i
  obtain ⟨h1, h2, h3, h4, h5, h6, h7, h8⟩ := hs
  simp only at h1 h2 h3 h4 h5
  subst h1 h2 h3 h4 h5
  cases p with
  | idle =>
    obtain ⟨k1, k2, k3, k4⟩ := h8
    simp only at k1 k2 k3 k4
    subst k1 k2 k3 k4
    simp [ThreadLoop] at h6 h7
    subst h6 h7
    cases op with
    | Reset env pre =>
      by_cases he : env = SetupEnv.good
      · subst he
        simp [protocol] at hp
        subst hp
        cases pre <;>
        simp [Agree, Sim, step, Reset, ResetReturn, ResetError, WebPWorkerStatus.toNat,
          ThreadLoop, SetupEnv.good]
      · simp [protocol, he] at hp
    | _ =>
      simp [protocol] at hp
      try subst hp
      try simp [Agree, Sim, step, Sync, Launch, End, Execute, WebPWorkerStatus.toNat,
        ThreadLoop, ChangeState, waitUntilOK, pthread_join]
  | ready =>
    obtain ⟨k1, k2, k3, k4⟩ := h8
    simp only at k1 k2 k3 k4
    subst k2 k3 k4
    simp [ThreadLoop] at h6 h7
    subst h6 h7
    cases timpl with
    | none => exact absurd rfl k1
    | some j =>
      clear k1
      cases op with
      | Reset env pre =>
        by_cases he : env = SetupEnv.good
        · subst he
          simp [protocol] at hp
          subst hp
          cases pre <;>
          simp [Agree, Sim, step, Reset, ResetReturn, ResetError, WebPWorkerStatus.toNat,
            ThreadLoop, SetupEnv.good]
        · simp [protocol, he] at hp
      | _ =>
        simp [protocol] at hp
        try subst hp
        try cases thook <;>
          simp [Agree, Sim, step, Sync, Launch, End, Execute, WebPWorkerStatus.toNat,
            ThreadLoop, ChangeState, waitUntilOK, pthread_join]
  | busy =>
    obtain ⟨k1, k2, k3, k4⟩ := h8
    simp only at k1 k2 k3 k4
    subst k3 k4
    cases timpl with
    | none => exact absurd rfl k1
    | some j =>
      clear k1
      cases tstatus with
      | NOT_OK => exact absurd rfl k2
      | OK =>
        simp [ThreadLoop] at h6 h7
        subst h6 h7
        cases op with
        | Reset env pre => simp [protocol] at hp
        | _ =>
          simp [protocol] at hp
          try subst hp
          try cases thook <;>
            simp [Agree, Sim, step, Sync, Launch, End, Execute, WebPWorkerStatus.toNat,
              ThreadLoop, ChangeState, waitUntilOK, pthread_join]
      | WORK =>
        cases thook with
        | none =>
          simp [ThreadLoop, Execute] at h6 h7
          subst h6 h7
          cases op with
          | Reset env pre => simp [protocol] at hp
          | _ =>
            simp [protocol] at hp
            try subst hp
            try simp [Agree, Sim, step, Sync, Launch, End, Execute, WebPWorkerStatus.toNat,
                ThreadLoop, ChangeState, waitUntilOK, pthread_join]
        | some f =>
          simp [ThreadLoop, Execute] at h6 h7
          subst h6 h7
          cases op with
          | Reset env pre => simp [protocol] at hp
          | _ =>
            simp [protocol] at hp
            try subst hp
            try simp [Agree, Sim, step, Sync, Launch, End, Execute, WebPWorkerStatus.toNat,
                ThreadLoop, ChangeState, waitUntilOK, pthread_join]

/-- A sequence of calls of a caller that keeps to the protocol, likewise. -/
theorem run_sim (ops : List Op) : ∀ (p : Phase) (t i : Sys), Sim p t i → obeys p ops = true →
    ∃ q, Agree q (run true ops t) (run false ops i) := by
  induction ops with
  | nil =>
    intro p t i hs _
    exact ⟨p, by simp [run, Agree, hs]⟩
  | cons op ops ih =>
    intro p t i hs ho
    simp only [obeys] at ho
    rcases hq : protocol p op with _ | q
    · simp [hq] at ho
    · simp only [hq] at ho
      have h1 := step_sim p q op t i hs hq
      rcases e1 : step true op t with x | ⟨o1, t1⟩
      · simp [e1, Agree] at h1
      · rcases e2 : step false op i with x | ⟨o2, i1⟩
        · simp [e1, e2, Agree] at h1
        · simp only [e1, e2, Agree] at h1
          obtain ⟨eo, hs1⟩ := h1
          subst eo
          obtain ⟨q2, h2⟩ := ih q t1 i1 hs1 ho
          refine ⟨q2, ?_⟩
          rw [run_cons_ok true op ops t t1 o1 e1, run_cons_ok false op ops i i1 o1 e2]
          rcases e3 : run true ops t1 with x | ⟨o3, t2⟩
          · simp [e3, Agree] at h2
          · rcases e4 : run false ops i1 with x | ⟨o4, i2⟩
            · simp [e3, e4, Agree] at h2
            · simp only [e3, e4, Agree] at h2
              simp only [Agree]
              exact ⟨by rw [h2.1], h2.2⟩

/-- After `Init` the two builds correspond. -/
theorem Sim_boot (w : WebPWorker) : Sim .idle (boot w) (boot w) := by
  simp [Sim, boot, Init, ThreadLoop]

/-- Corresponding states agree once the worker thread has had its turn. -/
theorem Sim_settled (p : Phase) (t i : Sys) (h : Sim p t i) :
    (ThreadLoop t).trace = i.trace ∧
    (ThreadLoop t).worker.had_error = i.worker.had_error ∧
    (ThreadLoop t).worker.status = i.worker.status := by
  obtain ⟨_, _, _, _, _, h6, h7, h8⟩ := h
  refine ⟨h7.symm, h6.symm, ?_⟩
  obtain ⟨⟨timpl, tstatus, thook, td1, td2, the⟩, tthread, ttrace, tallocs, tspawns, twaits⟩ := t
  cases p <;> cases tstatus <;> cases thook <;> simp_all [ThreadLoop, Execute]

/-! ## The worker contract -/

/-- Claim C1: for every worker, hook `h` and payload `(d1, d2)`, in the threaded and in the
inline build alike and wherever the scheduler places the turns of the worker thread: after
`Init`, the assignment of hook and payload, a successful `Reset`, one `Launch` and one
`Sync`, all calls have returned (no assertion failed), `Reset` returned 1, `h` has been
executed exactly once, on `(d1, d2)`, `Sync` returned 0 if `h` returned 0 and 1 otherwise,
and the status after `Sync` is `OK`. -/
theorem C1_launch_sync_runs_hook_once (use_thread : Bool) (w : WebPWorker)
    (h : WebPWorkerHook) (d1 d2 : Nat) (preempt : Bool) (n0 n1 n2 n3 : Nat) :
    ∃ s, run use_thread
        (yields n0 ++ Op.assign (some h) d1 d2 :: (yields n1 ++ Op.Reset .good preempt ::
          (yields n2 ++ Op.Launch :: (yields n3 ++ [Op.Sync])))) (boot w)
      = .ok ([.reset 1,
              .sync (if h d1 d2 = 0 then 0 else 1) .OK (if h d1 d2 = 0 then 1 else 0)
                [⟨h, d1, d2⟩]], s)
      ∧ s.trace = [⟨h, d1, d2⟩] ∧ s.worker.status = .OK := by
  rw [run_yields]
  simp only [run, step]
  rw [run_yields]
  simp only [run, step]
  cases use_thread
  · by_cases e : h d1 d2 = 0 <;>
    simp [turns, boot, Init, Reset, ResetReturn, WebPWorkerStatus.toNat, run_yields, run, step,
      Launch, Execute, Sync, ThreadLoop, e, lor_zero_right, lor_zero_one]
  · by_cases e : h d1 d2 = 0 <;> cases preempt <;> by_cases e2 : n2 = 0 <;>
      by_cases e3 : n3 = 0 <;>
    simp [turns, boot, Init, Reset, ResetReturn, WebPWorkerStatus.toNat, run_yields, run, step,
      Launch, Execute, Sync, ThreadLoop, e, e2, e3, lor_zero_right, lor_zero_one,
      SetupEnv.good, ChangeState, waitUntilOK]

/-- Claim C2: the error flag is sticky.  In both builds, for every well-formed worker and
all sequences `ops1`, `ops2` of calls and scheduler turns that contain no `Reset`: both
sequences return, and if the flag was set at the start or some hook invocation made during
`ops1` returned 0, then the flag is set after `ops1`, it is still set after `ops2`, and
every `Sync` of `ops2` returns 0, whatever the later hooks return.  Moreover `Execute` with
a `NULL` hook changes nothing, and otherwise it ors `!hook(data1, data2)` into the flag. -/
theorem C2_had_error_sticky (use_thread : Bool) (s : Sys) (ops1 ops2 : List Op)
    (hwf : s.wf use_thread)
    (h1 : ∀ op ∈ ops1, op.isReset = false) (h2 : ∀ op ∈ ops2, op.isReset = false) :
    (∃ o1 s1 o2 s2 new,
      run use_thread ops1 s = .ok (o1, s1) ∧ run use_thread ops2 s1 = .ok (o2, s2) ∧
      s1.trace = s.trace ++ new ∧
      ((s.worker.had_error ≠ 0 ∨ ∃ c ∈ new, c.fails = true) →
        s1.worker.had_error ≠ 0 ∧ s2.worker.had_error ≠ 0 ∧
        ∀ r st he tr, Obs.sync r st he tr ∈ o2 → r = 0)) ∧
    (s.worker.hook = none → Execute s = s) ∧
    (∀ h, s.worker.hook = some h →
      (Execute s).worker.had_error =
        Int.lor s.worker.had_error (if h s.worker.data1 s.worker.data2 = 0 then 1 else 0)) := by
  refine ⟨?_, ?_, ?_⟩
  · have p1 := run_inv use_thread (fun op => op.isReset = false)
      (fun t => t.wf use_thread ∧ ∃ new, t.trace = s.trace ++ new ∧
        ((s.worker.had_error ≠ 0 ∨ ∃ c ∈ new, c.fails = true) → t.worker.had_error ≠ 0))
      (fun _ => True)
      (by
        intro op t hop ⟨hw, new, ht, hI⟩
        have h3 := step_one_execute use_thread op t hw hop
        have h4 := step_wf use_thread op t hw
        rcases hs : step use_thread op t with e | ⟨o, u⟩
        · simp [hs, Returns] at h3
        · simp only [hs, Returns] at h3 h4
          simp only [Returns]
          refine ⟨fun _ _ => trivial, h4, ?_⟩
          rcases h3.1 with ⟨e1, e2⟩ | ⟨e1, e2⟩
          · exact ⟨new, by rw [e1, ht], by rw [e2]; exact hI⟩
          · rcases Execute_trace_error t with ⟨_, e⟩ | ⟨f, _, e3, e4⟩
            · rw [e] at e1 e2
              exact ⟨new, by rw [e1, ht], by rw [e2]; exact hI⟩
            · refine ⟨new ++ [⟨f, t.worker.data1, t.worker.data2⟩], ?_, ?_⟩
              · rw [e1, e3, ht, List.append_assoc]
              · intro hc
                rw [e2, e4]
                rcases hc with hc | ⟨c, hc, hf⟩
                · have := hI (Or.inl hc)
                  split_ifs
                  · exact lor_one_ne_zero _
                  · rw [lor_zero_right]; exact this
                · rcases List.mem_append.mp hc with hc | hc
                  · have := hI (Or.inr ⟨c, hc, hf⟩)
                    split_ifs
                    · exact lor_one_ne_zero _
                    · rw [lor_zero_right]; exact this
                  · simp at hc
                    subst hc
                    simp [HookCall.fails] at hf
                    simp [hf, lor_one_ne_zero])
      ops1 s h1 ⟨hwf, [], by simp, by simp⟩
    rcases hr1 : run use_thread ops1 s with e | ⟨o1, s1⟩
    · simp [hr1, Returns] at p1
    · simp only [hr1, Returns] at p1
      obtain ⟨_, hw1, new, ht, hI⟩ := p1
      have p2 := run_inv use_thread (fun op => op.isReset = false)
        (fun t => t.wf use_thread ∧ (s1.worker.had_error ≠ 0 → t.worker.had_error ≠ 0))
        (fun o => s1.worker.had_error ≠ 0 → ∀ r st he tr, o = Obs.sync r st he tr → r = 0)
        (by
          intro op t hop ⟨hw, hI2⟩
          have h3 := step_one_execute use_thread op t hw hop
          have h4 := step_wf use_thread op t hw
          rcases hs : step use_thread op t with e | ⟨o, u⟩
          · simp [hs, Returns] at h3
          · simp only [hs, Returns] at h3 h4
            simp only [Returns]
            have hu : s1.worker.had_error ≠ 0 → u.worker.had_error ≠ 0 := by
              intro hh
              rcases h3.1 with ⟨_, e2⟩ | ⟨_, e2⟩
              · rw [e2]; exact hI2 hh
              · rw [e2]; exact Execute_sticky t (hI2 hh)
            refine ⟨?_, h4, hu⟩
            intro ob hob hh r st he tr heq
            subst heq
            obtain ⟨e5, e6⟩ := h3.2 r st he tr hob
            rw [e6, if_neg]
            rw [e5]; exact hu hh)
        ops2 s1 h2 ⟨hw1, id⟩
      rcases hr2 : run use_thread ops2 s1 with e | ⟨o2, s2⟩
      · simp [hr2, Returns] at p2
      · simp only [hr2, Returns] at p2
        refine ⟨o1, s1, o2, s2, new, rfl, hr2, ht, ?_⟩
        intro hc
        have := hI hc
        exact ⟨this, p2.2.2 this, fun r st he tr hm => p2.1 _ hm this r st he tr rfl⟩
  · intro hn
    rcases Execute_trace_error s with ⟨_, e⟩ | ⟨f, hf, _, _⟩
    · exact e
    · rw [hn] at hf; cases hf
  · intro f hf
    rcases Execute_trace_error s with ⟨hn, _⟩ | ⟨g, hg, _, e⟩
    · rw [hn] at hf; cases hf
    · rw [hf] at hg
      cases hg
      exact e

/-- Claim C2 at a `Ready` worker of the threaded build: a failing task is launched and
synchronised, then a succeeding one. -/
theorem C2_had_error_sticky_witness :
    ((readyWorker failingHook).wf true ∧
      (∀ op ∈ [Op.Launch, Op.Sync], op.isReset = false) ∧
      (∀ op ∈ [Op.assign (some passingHook) 0 0, Op.Launch, Op.Sync],
        op.isReset = false)) ∧
    ((∃ o1 s1 o2 s2 new,
      run true [Op.Launch, Op.Sync] (readyWorker failingHook) = .ok (o1, s1) ∧
      run true [Op.assign (some passingHook) 0 0, Op.Launch, Op.Sync] s1 = .ok (o2, s2) ∧
      s1.trace = (readyWorker failingHook).trace ++ new ∧
      (((readyWorker failingHook).worker.had_error ≠ 0 ∨ ∃ c ∈ new, c.fails = true) →
        s1.worker.had_error ≠ 0 ∧ s2.worker.had_error ≠ 0 ∧
        ∀ r st he tr, Obs.sync r st he tr ∈ o2 → r = 0)) ∧
    ((readyWorker failingHook).worker.hook = none →
      Execute (readyWorker failingHook) = readyWorker failingHook) ∧
    (∀ h, (readyWorker failingHook).worker.hook = some h →
      (Execute (readyWorker failingHook)).worker.had_error =
        Int.lor (readyWorker failingHook).worker.had_error
          (if h (readyWorker failingHook).worker.data1
                (readyWorker failingHook).worker.data2 = 0 then 1 else 0))) :=
  ⟨⟨by decide, by simp [Op.isReset], by simp [Op.isReset]⟩,
    C2_had_error_sticky true (readyWorker failingHook) [Op.Launch, Op.Sync]
      [Op.assign (some passingHook) 0 0, Op.Launch, Op.Sync]
      (by decide) (by simp [Op.isReset]) (by simp [Op.isReset])⟩

/-- Claim C4 at its failing input: in the threaded build, with a hook that fails, after
`Init`, the assignment, `Reset` and `Launch`, a `Reset` during which the task finishes
between the store `had_error = 0` and the test of the status returns 1 and leaves the
status `OK` with `had_error` at 1; a second `Reset` applied directly afterwards returns 1
and changes `had_error` to 0, so it does not leave the worker as the first one left it. -/
theorem C4_reset_race_breaks_idempotence :
    summary (run true [.assign (some failingHook) 0 0, .Reset .good false, .Launch,
        .Reset .good true] (boot rawWorker)) = some ([1, 1], [], 1, .OK, 1) ∧
    summary (run true [.assign (some failingHook) 0 0, .Reset .good false, .Launch,
        .Reset .good true, .Reset .good false] (boot rawWorker))
      = some ([1, 1, 1], [], 0, .OK, 1) := by
  constructor <;> decide

/-- Claim C5: `Init` leaves status `NOT_OK`, `impl` `NULL`, `had_error` 0 and no hook; and
in both builds, for every worker that has been initialised by `Init` and then taken through
any sequence of calls and scheduler turns without `Launch` and `Execute` (among them:
nothing at all, and a `Reset` that succeeds or fails), the sequence returns, and `Sync`
then returns 1 and leaves the worker and its environment exactly as they were, the count of
waits included; every `Sync` inside the sequence returned 1 as well. -/
theorem C5_sync_without_launch (use_thread : Bool) (w : WebPWorker) (ops : List Op)
    (h : ∀ op ∈ ops, op.startsTask = false) :
    ((Init w).status = .NOT_OK ∧ (Init w).impl = none ∧ (Init w).had_error = 0 ∧
      (Init w).hook = none) ∧
    ∃ o s, run use_thread ops (boot w) = .ok (o, s) ∧ Sync use_thread s = .ok (1, s) ∧
      ∀ r st he tr, Obs.sync r st he tr ∈ o → r = 1 := by
  have p := run_inv use_thread (fun op => op.startsTask = false)
    (fun s => s.wf use_thread ∧ s.worker.had_error = 0 ∧ s.worker.status ≠ .WORK)
    (fun o => ∀ r st he tr, o = Obs.sync r st he tr → r = 1)
    (fun op s hop hI => step_quiet use_thread op s hop hI)
    ops (boot w) h ⟨boot_wf use_thread w, by simp [boot, Init], by simp [boot, Init]⟩
  obtain ⟨o, s, e, hq, hI⟩ := returns_pair _ _ p
  exact ⟨⟨rfl, rfl, rfl, rfl⟩, o, s, e, Sync_quiet use_thread s hI,
    fun r st he tr hm => hq _ hm r st he tr rfl⟩

/-- Claim C5 at a worker that was initialised and then `Reset`, in the threaded build. -/
theorem C5_sync_without_launch_witness :
    (∀ op ∈ [Op.Reset SetupEnv.good false], op.startsTask = false) ∧
    ((Init rawWorker).status = .NOT_OK ∧ (Init rawWorker).impl = none ∧
      (Init rawWorker).had_error = 0 ∧ (Init rawWorker).hook = none) ∧
    ∃ o s, run true [Op.Reset SetupEnv.good false] (boot rawWorker) = .ok (o, s) ∧
      Sync true s = .ok (1, s) ∧ ∀ r st he tr, Obs.sync r st he tr ∈ o → r = 1 :=
  ⟨by simp [Op.startsTask],
    C5_sync_without_launch true rawWorker [Op.Reset SetupEnv.good false]
      (by simp [Op.startsTask])⟩

/-- Claim C6: in both builds, for every worker reached from `Init` through any sequence of
calls (`Reset` with any outcome of its setup, `Launch`, `Sync`, `End`, also assignments,
`Execute` and scheduler turns), the sequence returns, and `End` then returns (its assertion
holds) with status `NOT_OK`, `impl` `NULL` and no thread left; a second `End` returns the
very same state. -/
theorem C6_end_terminal (use_thread : Bool) (w : WebPWorker) (ops : List Op) :
    ∃ o s t, run use_thread ops (boot w) = .ok (o, s) ∧ End use_thread s = .ok t ∧
      t.worker.status = .NOT_OK ∧ t.worker.impl = none ∧ t.thread = false ∧
      End use_thread t = .ok t := by
  obtain ⟨o, s, e, hwf⟩ := returns_pair _ _ (run_wf use_thread ops (boot w) (boot_wf _ w))
  obtain ⟨t, e2, h⟩ := returns_one _ _ (End_wf use_thread s hwf)
  exact ⟨o, s, t, e, e2, h⟩

/-- Claim C7: in the threaded build, when a setup step of `Reset` fails on an idle worker
(the allocation, the mutex, the condition or the thread), `Reset` returns 0 and leaves the
worker idle: status `NOT_OK`, `impl` `NULL`, no thread, no hook run.  From then on `Launch`,
`Sync` and `End`, and every sequence of them, return and change nothing, `Launch` runs no
hook and every `Sync` returns 1. -/
theorem C7_setup_failure_recoverable (env : SetupEnv) (preempt : Bool) (s : Sys)
    (ops : List Op)
    (hidle : s.worker.impl = none ∧ s.worker.status = .NOT_OK ∧ s.thread = false)
    (hfail : env.fails = true) (hops : ∀ op ∈ ops, op.isLaunchSyncEnd = true) :
    ∃ t o, Reset true env preempt s = .ok (0, t) ∧
      t.worker.status = .NOT_OK ∧ t.worker.impl = none ∧ t.thread = false ∧
      t.trace = s.trace ∧ t.spawns = s.spawns ∧
      Launch true t = .ok t ∧ Sync true t = .ok (1, t) ∧ End true t = .ok t ∧
      run true ops t = .ok (o, t) ∧ ∀ r st he tr, Obs.sync r st he tr ∈ o → r = 1 := by
  obtain ⟨r, t, e, hr, h1, h2, h3, h4, h5, h6⟩ :=
    returns_pair _ _ (Reset_failed_setup env preempt s hidle hfail)
  simp only at hr
  subst hr
  have p := run_inv true (fun op => op.isLaunchSyncEnd = true) (fun u => u = t)
    (fun o => ∀ r st he tr, o = Obs.sync r st he tr → r = 1)
    (fun op u hop hI => by
      subst hI
      exact step_failed_setup op _ hop ⟨h1, h2, h3, h4⟩)
    ops t hops rfl
  obtain ⟨o, u, e2, hq, hu⟩ := returns_pair _ _ p
  simp only at hu
  subst hu
  have l := step_failed_setup Op.Launch u rfl ⟨h1, h2, h3, h4⟩
  have y := step_failed_setup Op.Sync u rfl ⟨h1, h2, h3, h4⟩
  have d := step_failed_setup Op.End u rfl ⟨h1, h2, h3, h4⟩
  refine ⟨u, o, e, h2, h1, h3, h5, h6, ?_, ?_, ?_, e2,
    fun r st he tr hm => hq _ hm r st he tr rfl⟩
  · simp only [step] at l
    rcases hl : Launch true u with x | v
    · simp [hl, Returns] at l
    · simp [hl, Returns] at l
      rw [l]
  · simp only [step] at y
    rcases hy : Sync true u with x | ⟨r, v⟩
    · simp [hy, Returns] at y
    · simp [hy, Returns] at y
      rw [y.2, ← y.1 r _ _ _ rfl rfl rfl rfl]
  · simp only [step] at d
    rcases hd : End true u with x | v
    · simp [hd, Returns] at d
    · simp [hd, Returns] at d
      rw [d]

/-- Claim C7 at a freshly initialised worker whose thread cannot be created. -/
theorem C7_setup_failure_recoverable_witness :
    (((boot rawWorker).worker.impl = none ∧ (boot rawWorker).worker.status = .NOT_OK ∧
        (boot rawWorker).thread = false) ∧
      SetupEnv.fails { calloc_ok := true, mutex_init := 0, cond_init := 0, create := 11 }
        = true ∧
      (∀ op ∈ [Op.Launch, Op.Sync, Op.End], op.isLaunchSyncEnd = true)) ∧
    ∃ t o, Reset true { calloc_ok := true, mutex_init := 0, cond_init := 0, create := 11 }
        false (boot rawWorker) = .ok (0, t) ∧
      t.worker.status = .NOT_OK ∧ t.worker.impl = none ∧ t.thread = false ∧
      t.trace = (boot rawWorker).trace ∧ t.spawns = (boot rawWorker).spawns ∧
      Launch true t = .ok t ∧ Sync true t = .ok (1, t) ∧ End true t = .ok t ∧
      run true [Op.Launch, Op.Sync, Op.End] t = .ok (o, t) ∧
      ∀ r st he tr, Obs.sync r st he tr ∈ o → r = 1 :=
  ⟨⟨by decide, by decide, by simp [Op.isLaunchSyncEnd]⟩,
    C7_setup_failure_recoverable
      { calloc_ok := true, mutex_init := 0, cond_init := 0, create := 11 } false
      (boot rawWorker) [Op.Launch, Op.Sync, Op.End] (by decide) (by decide)
      (by simp [Op.isLaunchSyncEnd])⟩

/-- Claim C8, refuted as stated: the two builds differ on sequences that start with `Init`.
With a hook that fails, `Launch` before any `Reset` runs the hook in the inline build
(`Sync` then returns 0) and runs nothing in the threaded build (`Sync` returns 1).  A
`Reset` issued while the task is in flight returns 1 with `had_error` 0 in the inline build
and 0 with `had_error` 1 in the threaded build.  A hook assigned while the task is in flight
replaces the launched one in the threaded build only. -/
theorem C8_builds_differ_outside_protocol :
    (summary (run false [.assign (some failingHook) 0 0, .Launch, .Sync] (boot rawWorker))
        = some ([], [0], 1, .NOT_OK, 1) ∧
      summary (run true [.assign (some failingHook) 0 0, .Launch, .Sync] (boot rawWorker))
        = some ([], [1], 0, .NOT_OK, 0)) ∧
    (summary (run false [.assign (some failingHook) 0 0, .Reset .good false, .Launch,
          .Reset .good false] (boot rawWorker)) = some ([1, 1], [], 0, .OK, 1) ∧
      summary (run true [.assign (some failingHook) 0 0, .Reset .good false, .Launch,
          .Reset .good false] (boot rawWorker)) = some ([1, 0], [], 1, .OK, 1)) ∧
    (summary (run false [.assign (some failingHook) 0 0, .Reset .good false, .Launch,
          .assign (some passingHook) 0 0, .Sync] (boot rawWorker))
        = some ([1], [0], 1, .OK, 1) ∧
      summary (run true [.assign (some failingHook) 0 0, .Reset .good false, .Launch,
          .assign (some passingHook) 0 0, .Sync] (boot rawWorker))
        = some ([1], [1], 0, .OK, 1)) := by
  refine ⟨⟨?_, ?_⟩, ⟨?_, ?_⟩, ⟨?_, ?_⟩⟩ <;> decide

/-- Claim C8, amended: for every sequence of calls after `Init` that keeps to the protocol
(`Launch` only on a worker that was `Reset` successfully and not ended since; `Reset` and
the assignment of hook and payload only while no launched task is unsynchronised; setup
assumed to succeed) and for every schedule of the worker thread, both builds return from
every call and show the same observations: the same value from every `Reset` and every
`Sync`, and the same status, error flag and history of hook invocations after every `Sync`
and every `End`.  At the end of the sequence the builds agree on the history, the error
flag and the status as soon as the worker thread has had its turn. -/
theorem C8_builds_agree_on_protocol (w : WebPWorker) (ops : List Op)
    (h : obeys .idle ops = true) :
    ∃ o t i, run true ops (boot w) = .ok (o, t) ∧ run false ops (boot w) = .ok (o, i) ∧
      (ThreadLoop t).trace = i.trace ∧
      (ThreadLoop t).worker.had_error = i.worker.had_error ∧
      (ThreadLoop t).worker.status = i.worker.status := by
  obtain ⟨q, hq⟩ := run_sim ops .idle (boot w) (boot w) (Sim_boot w) h
  rcases e1 : run true ops (boot w) with x | ⟨o1, t⟩
  · simp [e1, Agree] at hq
  · rcases e2 : run false ops (boot w) with x | ⟨o2, i⟩
    · simp [e1, e2, Agree] at hq
    · simp only [e1, e2, Agree] at hq
      obtain ⟨eo, hs⟩ := hq
      subst eo
      exact ⟨o1, t, i, rfl, rfl, Sim_settled q t i hs⟩

/-- Claim C8, amended, at the sequence assignment, `Reset`, `Launch`, a turn of the worker
thread, `Sync`, `End`, with a hook that fails. -/
theorem C8_builds_agree_on_protocol_witness :
    obeys .idle [.assign (some failingHook) 1 2, .Reset .good false, .Launch, .yield,
      .Sync, .End] = true ∧
    ∃ o t i,
      run true [.assign (some failingHook) 1 2, .Reset .good false, .Launch, .yield,
        .Sync, .End] (boot rawWorker) = .ok (o, t) ∧
      run false [.assign (some failingHook) 1 2, .Reset .good false, .Launch, .yield,
        .Sync, .End] (boot rawWorker) = .ok (o, i) ∧
      (ThreadLoop t).trace = i.trace ∧
      (ThreadLoop t).worker.had_error = i.worker.had_error ∧
      (ThreadLoop t).worker.status = i.worker.status :=
  ⟨by decide,
    C8_builds_agree_on_protocol rawWorker
      [.assign (some failingHook) 1 2, .Reset .good false, .Launch, .yield, .Sync, .End]
      (by decide)⟩

/-! ## The quantizer division -/

/-- The value of `QUANTDIV` without the intermediate reductions: the sum taken modulo
`2^32`, divided by `2^17`; the cast to `int` changes nothing. -/
theorem QUANTDIV_eq (n iQ B : Nat) :
    QUANTDIV n iQ B = (((n * iQ + B) % 2 ^ 32 / 2 ^ 17 : Nat) : Int) := by
  unfold QUANTDIV toUint32 toInt QFIX
  have e : ((n % 2 ^ 32 * (iQ % 2 ^ 32)) % 2 ^ 32 + B % 2 ^ 32) % 2 ^ 32
      = (n * iQ + B) % 2 ^ 32 := by
    rw [← Nat.mul_mod, ← Nat.add_mod]
  rw [e, Nat.shiftRight_eq_div_pow]
  have hlt : (n * iQ + B) % 2 ^ 32 / 2 ^ 17 < 2 ^ 31 := by
    have : (n * iQ + B) % 2 ^ 32 < 2 ^ 32 := Nat.mod_lt _ (by norm_num)
    omega
  rw [if_pos hlt]

/-- Claim C9: for all `n`, `iQ`, `B` (converted to `uint32_t` on entry, so in particular
for all 32-bit unsigned values) `QUANTDIV(n, iQ, B)` is `(n*iQ + B) mod 2^32` shifted right
by `QFIX = 17` bits, that is, its quotient by 131072; and `BIAS(b) = b * 2^9` for every `b`
below `2^22`, the arguments on which the shift loses no bit whether `b` is an `int` or a
`uint32_t`, so that `BIAS(128)` is one half of `2^17`. -/
theorem C9_quantdiv_multiply_shift (n iQ B : Nat) :
    QUANTDIV n iQ B = ((((n * iQ + B) % 2 ^ 32) >>> 17 : Nat) : Int) ∧
    QUANTDIV n iQ B = (((n * iQ + B) % 2 ^ 32 / 131072 : Nat) : Int) ∧
    QFIX = 17 ∧ (∀ b, b < 2 ^ 22 → BIAS b = b * 2 ^ 9) ∧ 2 * BIAS 128 = 2 ^ QFIX := by
  refine ⟨?_, ?_, rfl, ?_, by decide⟩
  · rw [QUANTDIV_eq, Nat.shiftRight_eq_div_pow]
  · rw [QUANTDIV_eq]; norm_num
  · intro b hb
    simp only [BIAS, QFIX, toUint32, Nat.shiftLeft_eq]
    exact Nat.mod_eq_of_lt (by omega)

/-- Claim C10, refuted as stated: for the step `q = 3` and the magnitude `n = 3` (within
the stated bounds) `QUANTDIV(3, floor(2^17 / 3), 0)` is 0 while `3 / 3` is 1; and for
`q = 2` the reciprocal `floor(2^17 / 2) = 65536` does not fit a `uint16_t`. -/
theorem C10_quantdiv_differs_from_quotient :
    (2 ≤ 3 ∧ 3 ≤ 65535 ∧ 3 * (2 ^ 17 / 3) < 2 ^ 32) ∧
    QUANTDIV 3 (2 ^ 17 / 3) 0 = 0 ∧ ((3 / 3 : Nat) : Int) = 1 ∧
    ¬ (2 ^ 17 / 2 ≤ 65535) := by
  refine ⟨by decide, ?_, by decide, by decide⟩
  rw [QUANTDIV_eq]; norm_num

/-- Claim C10, amended: for every step `q` with `2 <= q <= 65535`, `iq = floor(2^17 / q)`
and every `n` with `n*iq < 2^32`, `QUANTDIV(n, iq, 0)` never exceeds the quotient `n / q`,
is at least `n / q - 1` when `n <= 2^17`, and equals `n / q` when `q` divides `2^17` (a
power of two); `iq` fits a `uint16_t` when `q >= 3`. -/
theorem C10_quantdiv_near_quotient (q n : Nat) (hq : 2 ≤ q) (hq2 : q ≤ 65535)
    (hn : n * (2 ^ 17 / q) < 2 ^ 32) :
    QUANTDIV n (2 ^ 17 / q) 0 ≤ ((n / q : Nat) : Int) ∧
    (n ≤ 2 ^ 17 → ((n / q : Nat) : Int) ≤ QUANTDIV n (2 ^ 17 / q) 0 + 1) ∧
    (q ∣ 2 ^ 17 → QUANTDIV n (2 ^ 17 / q) 0 = ((n / q : Nat) : Int)) ∧
    (3 ≤ q → 2 ^ 17 / q ≤ 65535) := by
  have hq0 : 0 < q := by omega
  rw [QUANTDIV_eq, Nat.add_zero, Nat.mod_eq_of_lt hn]
  generalize hiq : 2 ^ 17 / q = iq at *
  have h1 : iq * q ≤ 2 ^ 17 := by rw [← hiq]; exact Nat.div_mul_le_self _ _
  have h2 : 2 ^ 17 < iq * q + q := by rw [← hiq]; exact Nat.lt_div_mul_add hq0
  have h3 : n * iq / 2 ^ 17 * 2 ^ 17 ≤ n * iq := Nat.div_mul_le_self _ _
  have h4 : n / q * q ≤ n := Nat.div_mul_le_self _ _
  have hup : n * iq / 2 ^ 17 ≤ n / q := by
    rw [Nat.le_div_iff_mul_le hq0]
    generalize n * iq / 2 ^ 17 = A at *
    have := Nat.mul_le_mul_right q h3
    have := Nat.mul_le_mul_left n h1
    nlinarith
  refine ⟨by exact_mod_cast hup, ?_, ?_, ?_⟩
  · intro hn17
    have : n / q ≤ n * iq / 2 ^ 17 + 1 := by
      rcases hd : n / q with _ | e
      · omega
      · rw [hd] at h4
        have : e ≤ n * iq / 2 ^ 17 := by
          rw [Nat.le_div_iff_mul_le (by norm_num)]
          have := Nat.mul_le_mul_right iq h4
          nlinarith
        omega
    exact_mod_cast this
  · intro hd
    have e : iq * q = 2 ^ 17 := by rw [← hiq]; exact Nat.div_mul_cancel hd
    have hi0 : 0 < iq := by
      rcases Nat.eq_zero_or_pos iq with h | h
      · rw [h] at e; norm_num at e
      · exact h
    rw [← e, Nat.mul_comm iq q, Nat.mul_div_mul_right _ _ hi0]
  · intro h3
    rw [← hiq]
    calc 2 ^ 17 / q ≤ 2 ^ 17 / 3 := Nat.div_le_div_left h3 (by norm_num)
      _ ≤ 65535 := by norm_num

/-- Claim C10, amended, at the step `q = 8` and the magnitude `n = 2047`. -/
theorem C10_quantdiv_near_quotient_witness :
    (2 ≤ 8 ∧ 8 ≤ 65535 ∧ 2047 * (2 ^ 17 / 8) < 2 ^ 32) ∧
    (QUANTDIV 2047 (2 ^ 17 / 8) 0 ≤ ((2047 / 8 : Nat) : Int) ∧
    (2047 ≤ 2 ^ 17 → ((2047 / 8 : Nat) : Int) ≤ QUANTDIV 2047 (2 ^ 17 / 8) 0 + 1) ∧
    (8 ∣ 2 ^ 17 → QUANTDIV 2047 (2 ^ 17 / 8) 0 = ((2047 / 8 : Nat) : Int)) ∧
    (3 ≤ 8 → 2 ^ 17 / 8 ≤ 65535)) :=
  ⟨by decide, C10_quantdiv_near_quotient 8 2047 (by decide) (by decide) (by decide)⟩

/-! ## The interface table -/

/-- Claim C11: `WebPSetWorkerInterface` returns 0 exactly when its argument is `NULL` or
one of the six methods is `NULL`, and then it leaves the installed interface as it was;
otherwise it returns 1 and `WebPGetWorkerInterface` afterwards yields the six given methods.
The interface installed initially holds the built-in `Init`, `Reset`, `Sync`, `Launch`,
`Execute` and `End`. -/
theorem C11_set_worker_interface (g : WebPWorkerInterface)
    (winterface : Option WebPWorkerInterface) :
    ((WebPSetWorkerInterface g winterface).1 = 0 ↔
      (winterface = none ∨ ∃ w, winterface = some w ∧
        (w.Init = none ∨ w.Reset = none ∨ w.Sync = none ∨ w.Launch = none ∨
          w.Execute = none ∨ w.End = none))) ∧
    (((WebPSetWorkerInterface g winterface).1 = 0 ∧
        WebPGetWorkerInterface (WebPSetWorkerInterface g winterface).2 = g) ∨
      ((WebPSetWorkerInterface g winterface).1 = 1 ∧
        some (WebPGetWorkerInterface (WebPSetWorkerInterface g winterface).2)
          = winterface)) ∧
    WebPGetWorkerInterface g_worker_interface =
      { Init := some .Init, Reset := some .Reset, Sync := some .Sync,
        Launch := some .Launch, Execute := some .Execute, End := some .End } := by
  refine ⟨?_, ?_, rfl⟩
  · cases winterface with
    | none => simp [WebPSetWorkerInterface]
    | some w =>
      simp only [WebPSetWorkerInterface]
      split_ifs with h
      · simp [h]
      · simp [h]
  · cases winterface with
    | none => simp [WebPSetWorkerInterface, WebPGetWorkerInterface]
    | some w =>
      simp only [WebPSetWorkerInterface]
      split_ifs with h
      · simp [WebPGetWorkerInterface]
      · simp [WebPGetWorkerInterface]

/-! ## More on the quantizer division -/

/-- The value of `QUANTDIV` when the sum does not wrap. -/
theorem QUANTDIV_exact (n iQ B : Nat) (h : n * iQ + B < 2 ^ 32) :
    QUANTDIV n iQ B = (((n * iQ + B) / 2 ^ 17 : Nat) : Int) := by
  rw [QUANTDIV_eq, Nat.mod_eq_of_lt h]

/-- Claim C15: for every `iQ >= 1`, every bias `B < 2^17` and every `n` with
`n*iQ + B < 2^32`, `QUANTDIV(n, iQ, B)` is 0 exactly when
`n <= floor((2^17 - 1 - B) / iQ)`, and it is at least 1 for every `n` above that
threshold. -/
theorem C15_zero_threshold (n iQ B : Nat) (hq : 1 ≤ iQ) (hB : B < 2 ^ 17)
    (h : n * iQ + B < 2 ^ 32) :
    (QUANTDIV n iQ B = 0 ↔ n ≤ (2 ^ 17 - 1 - B) / iQ) ∧
    ((2 ^ 17 - 1 - B) / iQ < n → 1 ≤ QUANTDIV n iQ B) := by
  rw [QUANTDIV_exact n iQ B h]
  have key : (n * iQ + B) / 2 ^ 17 = 0 ↔ n ≤ (2 ^ 17 - 1 - B) / iQ := by
    rw [Nat.div_eq_zero_iff (by norm_num), Nat.le_div_iff_mul_le hq]
    omega
  constructor
  · rw [← key]
    exact_mod_cast Iff.rfl
  · intro hlt
    have : (n * iQ + B) / 2 ^ 17 ≠ 0 := fun e => absurd (key.mp e) (by omega)
    have : 1 ≤ (n * iQ + B) / 2 ^ 17 := Nat.one_le_iff_ne_zero.mpr this
    exact_mod_cast this

/-- Claim C15 at the reciprocal of the step 8, the bias `BIAS(128)` and the magnitude 3,
which is the threshold there. -/
theorem C15_zero_threshold_witness :
    (1 ≤ 16384 ∧ BIAS 128 < 2 ^ 17 ∧ 3 * 16384 + BIAS 128 < 2 ^ 32) ∧
    (QUANTDIV 3 16384 (BIAS 128) = 0 ↔ 3 ≤ (2 ^ 17 - 1 - BIAS 128) / 16384) ∧
    ((2 ^ 17 - 1 - BIAS 128) / 16384 < 3 → 1 ≤ QUANTDIV 3 16384 (BIAS 128)) :=
  ⟨by decide, C15_zero_threshold 3 16384 (BIAS 128) (by decide) (by decide) (by decide)⟩

/-- Claim C17: for all `n <= 65535`, `iQ <= 65535` and `B <= BIAS(255) = 255 * 2^9` the sum
`n*iQ + B` is below `2^32`, so `QUANTDIV(n, iQ, B)` is exactly
`floor((n*iQ + B) / 2^17)`, the cast to `int` changing nothing; it lies in `[0, 32767]` and
it does not decrease when `n` grows. -/
theorem C17_quantdiv_no_wrap (n iQ B : Nat) (hn : n ≤ 65535) (hq : iQ ≤ 65535)
    (hB : B ≤ BIAS 255) :
    BIAS 255 = 255 * 2 ^ 9 ∧ n * iQ + B < 2 ^ 32 ∧
    QUANTDIV n iQ B = (((n * iQ + B) / 2 ^ 17 : Nat) : Int) ∧
    0 ≤ QUANTDIV n iQ B ∧ QUANTDIV n iQ B ≤ 32767 ∧
    ∀ m, m ≤ n → QUANTDIV m iQ B ≤ QUANTDIV n iQ B := by
  have hb : BIAS 255 = 255 * 2 ^ 9 := by decide
  have bound : ∀ m, m ≤ n → m * iQ + B ≤ 65535 * 65535 + 255 * 2 ^ 9 := by
    intro m hm
    have := Nat.mul_le_mul (hm.trans hn) hq
    omega
  have lt : ∀ m, m ≤ n → m * iQ + B < 2 ^ 32 := fun m hm => by
    have := bound m hm
    omega
  refine ⟨hb, lt n le_rfl, QUANTDIV_exact n iQ B (lt n le_rfl), ?_, ?_, ?_⟩
  · rw [QUANTDIV_exact n iQ B (lt n le_rfl)]
    exact Int.natCast_nonneg _
  · rw [QUANTDIV_exact n iQ B (lt n le_rfl)]
    have := bound n le_rfl
    have : (n * iQ + B) / 2 ^ 17 ≤ 32767 := by omega
    exact_mod_cast this
  · intro m hm
    rw [QUANTDIV_exact n iQ B (lt n le_rfl), QUANTDIV_exact m iQ B (lt m hm)]
    have : m * iQ + B ≤ n * iQ + B := by
      have := Nat.mul_le_mul_right iQ hm
      omega
    exact_mod_cast Nat.div_le_div_right this

/-- Claim C17 at the largest values the matrix types allow. -/
theorem C17_quantdiv_no_wrap_witness :
    (65535 ≤ 65535 ∧ 65535 ≤ 65535 ∧ BIAS 255 ≤ BIAS 255) ∧
    BIAS 255 = 255 * 2 ^ 9 ∧ 65535 * 65535 + BIAS 255 < 2 ^ 32 ∧
    QUANTDIV 65535 65535 (BIAS 255) =
      (((65535 * 65535 + BIAS 255) / 2 ^ 17 : Nat) : Int) ∧
    0 ≤ QUANTDIV 65535 65535 (BIAS 255) ∧ QUANTDIV 65535 65535 (BIAS 255) ≤ 32767 ∧
    ∀ m, m ≤ 65535 → QUANTDIV m 65535 (BIAS 255) ≤ QUANTDIV 65535 65535 (BIAS 255) :=
  ⟨by decide, C17_quantdiv_no_wrap 65535 65535 (BIAS 255) (by decide) (by decide)
    (by decide)⟩

/-! ## The cache layout -/

/-- The bytes of a block are the `off + row * BPS + col` with `row` below its height and
`col` below its width. -/
theorem Block.mem_bytes (BPS : Nat) (b : Block) (x : Nat) :
    x ∈ b.bytes BPS ↔ ∃ row, row < b.height ∧ ∃ col, col < b.width ∧
      b.off + row * BPS + col = x := by
  simp [Block.bytes, List.mem_flatMap]

/-- Two blocks whose bytes, taken apart into row and column, can never coincide. -/
theorem Block.disjoint_of (a b : Block)
    (h : ∀ r c r2 c2, r < a.height → c < a.width → r2 < b.height → c2 < b.width →
      a.off + r * 32 + c ≠ b.off + r2 * 32 + c2) :
    ∀ x, x ∈ a.bytes 32 → x ∉ b.bytes 32 := by
  intro x ha hb
  obtain ⟨r, hr, c, hc, e1⟩ := (Block.mem_bytes 32 a x).mp ha
  obtain ⟨r2, hr2, c2, hc2, e2⟩ := (Block.mem_bytes 32 b x).mp hb
  exact h r c r2 c2 hr hc hr2 hc2 (e1.trans e2.symm)

/-- Claim C16: with `BPS = 32`, the four 16x16 intra16 blocks, the four 16x8 chroma blocks
and the eleven 4x4 blocks of the prediction area are pairwise disjoint and lie inside
`[0, PRED_SIZE_ENC)`; the 16x16 luma block and the two 8x8 chroma blocks of a sample area
are pairwise disjoint and lie inside `[0, YUV_SIZE_ENC)`. -/
theorem C16_cache_layout :
    (predBlocks 32).Pairwise (fun a b => ∀ x, x ∈ a.bytes 32 → x ∉ b.bytes 32) ∧
    (∀ b ∈ predBlocks 32, ∀ x ∈ b.bytes 32, x < PRED_SIZE_ENC 32) ∧
    yuvBlocks.Pairwise (fun a b => ∀ x, x ∈ a.bytes 32 → x ∉ b.bytes 32) ∧
    (∀ b ∈ yuvBlocks, ∀ x ∈ b.bytes 32, x < YUV_SIZE_ENC 32) := by
  refine ⟨?_, ?_, ?_, ?_⟩
  · simp only [predBlocks, List.pairwise_cons, List.mem_cons, List.mem_singleton,
      List.not_mem_nil, forall_eq_or_imp, forall_eq, List.Pairwise.nil, and_true,
      false_implies, implies_true, or_false]
    refine ⟨?_, ?_, ?_, ?_, ?_, ?_, ?_, ?_, ?_, ?_, ?_, ?_, ?_, ?_, ?_, ?_, ?_, ?_⟩
    all_goals
      repeat' constructor
    all_goals
      apply Block.disjoint_of
      simp only [I16DC16, I16TM16, I16VE16, I16HE16, C8DC8, C8TM8, C8VE8, C8HE8, I4DC4, I4TM4,
        I4VE4, I4HE4, I4RD4, I4VR4, I4LD4, I4VL4, I4HD4, I4HU4, I4TMP]
      intro r c r2 c2 h1 h2 h3 h4
      omega
  · intro b hb x hx
    obtain ⟨r, hr, c, hc, e⟩ := (Block.mem_bytes 32 b x).mp hx
    simp only [predBlocks, List.mem_cons, List.mem_singleton, List.not_mem_nil, or_false] at hb
    simp only [I16DC16, I16TM16, I16VE16, I16HE16, C8DC8, C8TM8, C8VE8, C8HE8, I4DC4, I4TM4,
      I4VE4, I4HE4, I4RD4, I4VR4, I4LD4, I4VL4, I4HD4, I4HU4, I4TMP] at hb
    simp only [PRED_SIZE_ENC]
    rcases hb with h | h | h | h | h | h | h | h | h | h | h | h | h | h | h | h | h | h | h <;>
      (subst h; simp only at hr hc e; omega)
  · simp only [yuvBlocks, List.pairwise_cons, List.mem_cons, List.mem_singleton,
      List.not_mem_nil, forall_eq_or_imp, forall_eq, List.Pairwise.nil, and_true,
      false_implies, implies_true, or_false]
    refine ⟨⟨?_, ?_⟩, ?_⟩
    all_goals
      apply Block.disjoint_of
      simp only [Y_OFF_ENC, U_OFF_ENC, V_OFF_ENC]
      intro r c r2 c2 h1 h2 h3 h4
      omega
  · intro b hb x hx
    obtain ⟨r, hr, c, hc, e⟩ := (Block.mem_bytes 32 b x).mp hx
    simp only [yuvBlocks, List.mem_cons, List.mem_singleton, List.not_mem_nil, or_false] at hb
    simp only [Y_OFF_ENC, U_OFF_ENC, V_OFF_ENC] at hb
    simp only [YUV_SIZE_ENC]
    rcases hb with h | h | h <;> (subst h; simp only at hr hc e; omega)

/-! ## The threaded build, step by step: the invariant -/

set_option maxHeartbeats 4000000 in
set_option maxRecDepth 100000 in
/-- The control invariant is kept by every move, whatever the next call is: checked on
each of the control states. -/
theorem View.closed_all : ∀ (p : MainPc) (c : Call) (st : WebPWorkerStatus),
    p.statusOk c st = true → ∀ (t : ThreadPc) (d : Bool), t.statusOk d st = true →
    ∀ (m : Option Tid) (f : Bool), View.closed ⟨p, t, st, d, c, m, f⟩ = true := by
  decide

set_option maxHeartbeats 4000000 in
set_option maxRecDepth 100000 in
/-- From every control state that satisfies the invariant, twenty-two turns of each thread
bring the main thread to the end of its call: checked on each of the control states. -/
theorem View.live_all : ∀ (p : MainPc) (c : Call) (st : WebPWorkerStatus),
    p.statusOk c st = true → ∀ (t : ThreadPc) (d : Bool), t.statusOk d st = true →
    ∀ (m : Option Tid) (f : Bool),
      (!(View.ok ⟨p, t, st, d, c, m, f⟩) ||
        decide ((View.turn^[22] ⟨p, t, st, d, c, m, f⟩).mpc = .idle)) = true := by
  decide

theorem View.ok_status {v : View} (h : v.ok = true) :
    v.mpc.statusOk v.call v.status = true ∧ v.tpc.statusOk v.done v.status = true := by
  simp only [View.ok, Bool.and_eq_true] at h
  exact ⟨h.1.1.1.1.1.1.1.2, h.1.1.1.1.1.1.2⟩

/-- The control invariant is kept by every move. -/
theorem View.ok_move {v v2 : View} {next : Option Call} {m : Move} (h : v.ok = true)
    (hm : v.move next m = some v2) : v2.ok = true := by
  have hc := View.closed_all v.mpc v.call v.status (View.ok_status h).1 v.tpc v.done
    (View.ok_status h).2 v.mutex v.freed
  have hv : (⟨v.mpc, v.tpc, v.status, v.done, v.call, v.mutex, v.freed⟩ : View) = v := rfl
  rw [hv] at hc
  simp only [View.closed, h, Bool.not_true, Bool.false_or, List.all_cons, List.all_nil,
    Bool.and_true, Bool.and_eq_true] at hc
  rcases next with _ | c
  · rcases m with t | t <;> cases t <;> simp_all
  · cases c <;> rcases m with t | t <;> cases t <;> simp_all

/-- Twenty-two turns of each thread bring the main thread to the end of its call. -/
theorem View.live {v : View} (h : v.ok = true) : (View.turn^[22] v).mpc = .idle := by
  have hc := View.live_all v.mpc v.call v.status (View.ok_status h).1 v.tpc v.done
    (View.ok_status h).2 v.mutex v.freed
  have hv : (⟨v.mpc, v.tpc, v.status, v.done, v.call, v.mutex, v.freed⟩ : View) = v := rfl
  rw [hv] at hc
  simpa [h] using hc

/-- The control part of the state after a move is the move of the control part. -/
theorem Conc.view_move (s : Conc) (m : Move) :
    (s.move m).map Conc.view = s.view.move s.todo.head? m := by
  rcases s with ⟨⟨⟨impl, status, hk, dd1, dd2, he⟩, thread, trace, allocs, spawns, waits⟩,
    mutex, mpc, call, todo, tpc, done, asked, launched, begun, completed, ml, mu, tl, tu, rets⟩
  rcases m with t | t <;> cases t
  · cases mpc <;>
      simp [Conc.move, View.move, Conc.mainStep, View.mainStep, Conc.view, Conc.setStatus]
    · cases todo <;> cases impl <;> simp [Call.enter, Conc.view]
    all_goals split_ifs <;> simp [Conc.view]
  · cases tpc <;>
      simp [Conc.move, View.move, Conc.workerStep, View.workerStep, Conc.view, Conc.setStatus,
        Execute]
    all_goals first
      | (cases hk <;> simp [Conc.view])
      | (split_ifs <;> simp [Conc.view])
  · simp only [Conc.move, View.move, Conc.view]
    split_ifs <;> simp [Conc.view]
  · simp only [Conc.move, View.move, Conc.view]
    split_ifs <;> simp [Conc.view]

/-- A move that is possible leads to a state whose control part is the move of the control
part. -/
theorem Conc.view_of_move {s s2 : Conc} {m : Move} (hm : s.move m = some s2) :
    s.view.move s.todo.head? m = some s2.view := by
  rw [← Conc.view_move, hm]
  rfl

/-- The state right after `Reset` satisfies the invariant. -/
theorem Inv_start (hook : Option WebPWorkerHook) (d1 d2 : Nat) (todo : List Call) :
    Inv hook d1 d2 (Conc.start hook d1 d2 todo) := by
  constructor <;> first
    | rfl
    | (cases hook <;> simp [Conc.start, freshReady, taskTrace, taskFails])

/-- What the control invariant says where the main thread stores the new status: the status
is `OK` and the worker thread is outside its critical section. -/
theorem View.ok_assign {v : View} (h : v.ok = true) (hp : v.mpc = .cs_assign) :
    v.status = .OK ∧ v.tpc ≠ .set_ok ∧ v.tpc ≠ .exec ∧ v.mutex = some .main ∧
      v.call ≠ .Sync := by
  rcases v with ⟨p, t, st, d, c, m, f⟩
  simp only at hp
  subst hp
  rcases m with _ | _ | _ <;> cases t <;> cases c <;>
    simp_all [View.ok, MainPc.holds, ThreadPc.holds, MainPc.statusOk]

/-- What the control invariant says while the hook runs and where the worker thread stores
`OK`: the status is `WORK` and the worker thread owns the mutex. -/
theorem View.ok_exec {v : View} (h : v.ok = true) (hp : v.tpc = .exec ∨ v.tpc = .set_ok) :
    v.status = .WORK ∧ v.mutex = some .worker ∧ v.mpc ≠ .cs_assign := by
  rcases v with ⟨p, t, st, d, c, m, f⟩
  simp only at hp
  rcases m with _ | _ | _ <;> rcases hp with hp | hp <;> subst hp <;> cases p <;>
    simp_all [View.ok, MainPc.holds, ThreadPc.holds, ThreadPc.statusOk]

/-- What the control invariant says about a call of `Launch` in `ChangeState`: the status
is not `NOT_OK`. -/
theorem View.ok_ge {v : View} (h : v.ok = true) (hp : v.mpc = .cs_ge) :
    v.status ≠ .NOT_OK := by
  rcases v with ⟨p, t, st, d, c, m, f⟩
  simp only at hp
  subst hp
  simp_all [View.ok, MainPc.statusOk]
set_option maxHeartbeats 2000000 in
/-- The invariant is kept by every step of the main thread. -/
theorem Inv_mainStep {hook : Option WebPWorkerHook} {d1 d2 : Nat} {s s2 : Conc}
    (h : Inv hook d1 d2 s) (hm : s.mainStep = some s2) : Inv hook d1 d2 s2 := by
  have hm2 : s.move (.run .main) = some s2 := hm
  have ctrl2 := View.ok_move h.ctrl (Conc.view_of_move hm2)
  have hA := View.ok_assign h.ctrl
  have hG := View.ok_ge h.ctrl
  clear hm2
  obtain ⟨a1, a2, a3, -, a5, a6, a7, a8, a9, a10, a11, a12⟩ := h
  rcases s with ⟨⟨⟨impl, status, hk, dd1, dd2, he⟩, thread, trace, allocs, spawns, waits⟩,
    mutex, mpc, call, todo, tpc, done, asked, launched, begun, completed, ml, mu, tl, tu, rets⟩
  simp only [Conc.view] at hA hG
  simp only at a1 a2 a3 a5 a6 a7 a8 a9 a10 a11 a12
  subst a1 a2 a3
  cases mpc <;> simp only [Conc.mainStep, Conc.setStatus] at hm
  case idle =>
    rcases todo with _ | ⟨c, rest⟩
    · simp at hm
    · simp only [Option.some.injEq] at hm
      subst hm
      refine ⟨rfl, rfl, rfl, ctrl2, ?_, a6, a7, ?_, a9, a10, a11, a12⟩
      · cases impl <;> cases c <;>
          simp_all [Call.enter, MainPc.locked, MainPc.holds]
      · cases impl <;> cases c <;>
          simp_all [Call.enter, MainPc.pending]
  all_goals
    try split_ifs at hm
    all_goals first
      | (simp at hm; done)
      | (simp only [Option.some.injEq] at hm
         subst hm
         refine ⟨rfl, rfl, rfl, ctrl2, ?_, ?_, ?_, ?_, ?_, ?_, ?_, ?_⟩ <;> first
           | assumption
           | (simp_all [MainPc.locked, MainPc.holds, MainPc.pending, Call.new_status,
               Call.after, ThreadPc.locked, ThreadPc.holds]; done)
           | (cases call <;> cases status <;>
               simp_all [MainPc.locked, MainPc.holds, MainPc.pending, Call.new_status,
                 Call.after, ThreadPc.locked, ThreadPc.holds, WebPWorkerStatus.toNat]))
set_option maxHeartbeats 2000000 in
/-- The invariant is kept by every step of the worker thread. -/
theorem Inv_workerStep {hook : Option WebPWorkerHook} {d1 d2 : Nat} {s s2 : Conc}
    (h : Inv hook d1 d2 s) (hm : s.workerStep = some s2) : Inv hook d1 d2 s2 := by
  have hm2 : s.move (.run .worker) = some s2 := hm
  have ctrl2 := View.ok_move h.ctrl (Conc.view_of_move hm2)
  have hE := View.ok_exec h.ctrl
  clear hm2
  obtain ⟨a1, a2, a3, -, a5, a6, a7, a8, a9, a10, a11, a12⟩ := h
  rcases s with ⟨⟨⟨impl, status, hk, dd1, dd2, he⟩, thread, trace, allocs, spawns, waits⟩,
    mutex, mpc, call, todo, tpc, done, asked, launched, begun, completed, ml, mu, tl, tu, rets⟩
  simp only [Conc.view] at hE
  simp only at a1 a2 a3 a5 a6 a7 a8 a9 a10 a11 a12
  subst a1 a2 a3
  cases tpc <;> simp only [Conc.workerStep, Conc.setStatus] at hm
  case exec =>
    simp only [Option.some.injEq] at hm
    subst hm
    obtain ⟨hs, -, -⟩ := hE (Or.inl rfl)
    subst hs
    rcases hk with _ | f
    · refine ⟨rfl, rfl, rfl, ctrl2, a5, ?_, a7, a8, ?_, ?_, ?_, ?_⟩ <;>
        simp_all [Execute, taskTrace, taskFails, ThreadPc.locked, ThreadPc.holds]
    · refine ⟨rfl, rfl, rfl, ctrl2, a5, ?_, a7, a8, ?_, ?_, ?_, ?_⟩
      · simp_all [Execute, ThreadPc.locked, ThreadPc.holds]
      · simp_all [Execute]
      · simp_all [Execute]
      · simp only [Execute, a11, taskTrace]
        rw [List.replicate_succ']
      · simp only [Execute, a12, taskFails]
        by_cases hc : 0 < completed <;> by_cases hf : f dd1 dd2 = 0 <;>
          simp [hc, hf, Int.lor]
  all_goals
    try split_ifs at hm
    all_goals first
      | (simp at hm; done)
      | (simp only [Option.some.injEq] at hm
         subst hm
         refine ⟨?_, ?_, ?_, ctrl2, ?_, ?_, ?_, ?_, ?_, ?_, ?_, ?_⟩ <;> first
           | assumption
           | rfl
           | simp_all [MainPc.locked, MainPc.holds, MainPc.pending, ThreadPc.locked,
               ThreadPc.holds])
/-- The invariant is kept by every move. -/
theorem Inv_move {hook : Option WebPWorkerHook} {d1 d2 : Nat} {s s2 : Conc} {m : Move}
    (h : Inv hook d1 d2 s) (hm : s.move m = some s2) : Inv hook d1 d2 s2 := by
  rcases m with t | t <;> cases t
  · exact Inv_mainStep h hm
  · exact Inv_workerStep h hm
  · have ctrl2 := View.ok_move h.ctrl (Conc.view_of_move hm)
    obtain ⟨a1, a2, a3, -, a5, a6, a7, a8, a9, a10, a11, a12⟩ := h
    simp only [Conc.move] at hm
    split_ifs at hm with hp
    simp only [Option.some.injEq] at hm
    subst hm
    refine ⟨a1, a2, a3, ctrl2, ?_, a6, a7, ?_, a9, a10, a11, a12⟩ <;>
      simp_all [MainPc.locked, MainPc.holds, MainPc.pending]
  · have ctrl2 := View.ok_move h.ctrl (Conc.view_of_move hm)
    obtain ⟨a1, a2, a3, -, a5, a6, a7, a8, a9, a10, a11, a12⟩ := h
    simp only [Conc.move] at hm
    split_ifs at hm with hp
    simp only [Option.some.injEq] at hm
    subst hm
    refine ⟨a1, a2, a3, ctrl2, a5, ?_, ?_, a8, ?_, ?_, a11, a12⟩ <;>
      simp_all [ThreadPc.locked, ThreadPc.holds]

/-- The invariant is kept by every schedule. -/
theorem Inv_exec {hook : Option WebPWorkerHook} {d1 d2 : Nat} (sched : List Move) :
    ∀ {s : Conc}, Inv hook d1 d2 s → Inv hook d1 d2 (Conc.exec sched s) := by
  induction sched with
  | nil => intro s h; exact h
  | cons m ms ih =>
    intro s h
    simp only [Conc.exec]
    apply ih
    cases hm : s.move m with
    | none => exact h
    | some s2 => exact Inv_move h hm

/-- Every state the two threads reach after `Reset` satisfies the invariant. -/
theorem Inv_reach (hook : Option WebPWorkerHook) (d1 d2 : Nat) (todo : List Call)
    (sched : List Move) :
    Inv hook d1 d2 (Conc.exec sched (Conc.start hook d1 d2 todo)) :=
  Inv_exec sched (Inv_start hook d1 d2 todo)

theorem Conc.exec_append (a b : List Move) (s : Conc) :
    Conc.exec (a ++ b) s = Conc.exec b (Conc.exec a s) := by
  induction a generalizing s with
  | nil => rfl
  | cons m ms ih => simp [Conc.exec, ih]
/-- Outside `idle` the step of the main thread does not look at the next call. -/
theorem View.mainStep_next (v : View) (next : Option Call) (h : v.mpc ≠ .idle) :
    v.mainStep next = v.mainStep none := by
  rcases v with ⟨p, t, st, d, c, m, f⟩
  cases p <;> simp_all [View.mainStep]

/-- A step of the worker thread does not bring the main thread to `idle`. -/
theorem View.workerStep_mpc {v v1 : View} (hm : v.workerStep = some v1) (h : v.mpc ≠ .idle) :
    v1.mpc ≠ .idle := by
  rcases v with ⟨p, t, st, d, c, m, f⟩
  cases t <;> simp only [View.workerStep] at hm
  all_goals
    try split_ifs at hm
    all_goals first
      | (simp at hm; done)
      | (simp only [Option.some.injEq] at hm
         subst hm
         simp_all)

/-- The control part after a move that is passed over when it is not possible. -/
theorem Conc.view_getD (s : Conc) (m : Move) :
    ((s.move m).getD s).view = (s.view.move s.todo.head? m).getD s.view := by
  rw [← Conc.view_move]
  cases s.move m <;> rfl

/-- Only the main thread at `idle` takes a call from the list. -/
theorem Conc.todo_move {s s2 : Conc} {m : Move} (hm : s.move m = some s2)
    (h : s.mpc ≠ .idle) : s2.todo = s.todo := by
  rcases s with ⟨sys, mutex, mpc, call, todo, tpc, done, asked, launched, begun, completed,
    ml, mu, tl, tu, rets⟩
  rcases m with t | t <;> cases t
  · cases mpc <;> simp only [Conc.move, Conc.mainStep, Conc.setStatus] at hm
    all_goals
      try split_ifs at hm
      all_goals first
        | (simp at hm; done)
        | (simp only [Option.some.injEq] at hm
           subst hm
           rfl)
        | simp at h
  · cases tpc <;> simp only [Conc.move, Conc.workerStep, Conc.setStatus] at hm
    all_goals
      try split_ifs at hm
      all_goals first
        | (simp at hm; done)
        | (simp only [Option.some.injEq] at hm
           subst hm
           rfl)
  · simp only [Conc.move] at hm
    split_ifs at hm
    simp only [Option.some.injEq] at hm
    subst hm
    rfl
  · simp only [Conc.move] at hm
    split_ifs at hm
    simp only [Option.some.injEq] at hm
    subst hm
    rfl

/-- One turn of each thread, while the main thread is in a call: the control part takes
the turn, and no call is taken from the list. -/
theorem Conc.exec_turn (s : Conc) (h : s.mpc ≠ .idle) :
    (Conc.exec [.run .worker, .run .main] s).view = s.view.turn ∧
      (Conc.exec [.run .worker, .run .main] s).todo = s.todo := by
  have h1 : ((s.move (.run .worker)).getD s).mpc ≠ .idle ∧
      ((s.move (.run .worker)).getD s).todo = s.todo := by
    cases hw : s.move (.run .worker) with
    | none => exact ⟨h, rfl⟩
    | some s1 =>
      refine ⟨?_, Conc.todo_move hw h⟩
      have hv : s.view.workerStep = some s1.view := Conc.view_of_move hw
      exact View.workerStep_mpc hv h
  constructor
  · have e1 : ((s.move (.run .worker)).getD s).view = s.view.workerStep.getD s.view :=
      Conc.view_getD s (.run .worker)
    simp only [Conc.exec, View.turn]
    rw [Conc.view_getD, e1]
    simp only [View.move]
    rw [View.mainStep_next _ _ (by rw [← e1]; exact h1.1)]
  · simp only [Conc.exec]
    cases hm : ((s.move (.run .worker)).getD s).move (.run .main) with
    | none => exact h1.2
    | some s2 => exact (Conc.todo_move hm h1.1).trans h1.2

/-- If some number of turns brings the control part to `idle`, a schedule brings the main
thread to the end of its call. -/
theorem Conc.returns_of_turns {hook : Option WebPWorkerHook} {d1 d2 : Nat} (k : Nat) :
    ∀ (s : Conc), Inv hook d1 d2 s → (View.turn^[k] s.view).mpc = .idle →
      ∃ sched, (Conc.exec sched s).mpc = .idle ∧ (Conc.exec sched s).todo = s.todo := by
  induction k with
  | zero => intro s _ h0; exact ⟨[], h0, rfl⟩
  | succ k ih =>
    intro s h hk
    by_cases hi : s.mpc = .idle
    · exact ⟨[], hi, rfl⟩
    · obtain ⟨hv, ht⟩ := Conc.exec_turn s hi
      rw [Function.iterate_succ_apply, ← hv] at hk
      obtain ⟨sched, h1, h2⟩ := ih _ (Inv_exec _ h) hk
      refine ⟨[.run .worker, .run .main] ++ sched, ?_, ?_⟩
      · rw [Conc.exec_append]; exact h1
      · rw [Conc.exec_append, h2, ht]

/-- The call the main thread is in returns: from every state that satisfies the invariant
some schedule brings the main thread to the end of its call. -/
theorem Conc.call_returns {hook : Option WebPWorkerHook} {d1 d2 : Nat} {s : Conc}
    (h : Inv hook d1 d2 s) :
    ∃ sched, (Conc.exec sched s).mpc = .idle ∧ (Conc.exec sched s).todo = s.todo :=
  Conc.returns_of_turns 22 s h (View.live h.ctrl)

/-- All the calls return: from every state that satisfies the invariant some schedule
brings the main thread to the end of its last call. -/
theorem Conc.all_return {hook : Option WebPWorkerHook} {d1 d2 : Nat} (n : Nat) :
    ∀ (s : Conc), Inv hook d1 d2 s → s.todo.length = n →
      ∃ sched, (Conc.exec sched s).finished = true := by
  induction n with
  | zero =>
    intro s h hn
    obtain ⟨sched, h1, h2⟩ := Conc.call_returns h
    refine ⟨sched, ?_⟩
    have : s.todo = [] := List.length_eq_zero.mp hn
    simp [Conc.finished, h1, h2, this]
  | succ n ih =>
    intro s h hn
    obtain ⟨sched, h1, h2⟩ := Conc.call_returns h
    obtain ⟨c, rest, hc⟩ : ∃ c rest, s.todo = c :: rest := by
      cases hs : s.todo with
      | nil => simp [hs] at hn
      | cons c rest => exact ⟨c, rest, rfl⟩
    have hs1 := Inv_exec sched h
    have hm : ((Conc.exec sched s).move (.run .main)).isSome = true ∧
        (((Conc.exec sched s).move (.run .main)).getD (Conc.exec sched s)).todo = rest := by
      simp only [Conc.move, Conc.mainStep, h1, h2, hc]
      simp
    obtain ⟨sched2, h3⟩ := ih (Conc.exec [.run .main] (Conc.exec sched s))
      (Inv_exec _ hs1) (by simp only [Conc.exec]; rw [hm.2]; simpa [hc] using hn)
    refine ⟨sched ++ ([.run .main] ++ sched2), ?_⟩
    rw [Conc.exec_append, Conc.exec_append]
    exact h3
/-- The control invariant, fact by fact. -/
theorem View.ok_facts {v : View} (h : v.ok = true) :
    (v.mutex = some .main ↔ v.mpc.holds = true) ∧
    (v.mutex = some .worker ↔ v.tpc.holds = true) ∧
    (v.freed = true → v.status = .NOT_OK ∧ v.tpc = .exited ∧
      (v.mpc = .idle ∨ v.mpc = .sync_assert ∨ v.mpc = .end_assert)) ∧
    (v.freed = false → (v.status = .NOT_OK ↔ v.call = .End ∧ v.mpc.ending = true) ∧
      v.mpc ≠ .end_assert) ∧
    (v.mpc = .end_free → v.tpc = .exited) ∧
    (v.mpc = .idle → v.call = .End → v.freed = true) ∧
    v.mpc ≠ .aborted := by
  rcases v with ⟨p, t, st, d, c, m, f⟩
  simp only [View.ok, Bool.and_eq_true, Bool.or_eq_true, beq_iff_eq, decide_eq_true_eq,
    Bool.not_eq_true', ne_eq] at h
  obtain ⟨⟨⟨⟨⟨⟨⟨⟨⟨h1, h2⟩, h3⟩, h4⟩, h5⟩, h6⟩, h7⟩, h8⟩, h9⟩, h10⟩ := h
  refine ⟨?_, ?_, ?_, ?_, ?_, ?_, ?_⟩
  · rw [← h1]; simp
  · rw [← h2]; simp
  · intro hf
    simp only at hf
    subst hf
    simp only [Bool.true_eq_false, false_or] at h5
    exact ⟨h5.1.1, h5.1.2, or_assoc.mp h5.2⟩
  · intro hf
    simp only at hf
    subst hf
    simp only [Bool.false_eq_true, false_or] at h6
    refine ⟨?_, h6.2⟩
    have h61 := h6.1
    by_cases hs : st = .NOT_OK
    · simp only [hs, decide_True] at h61
      simpa [hs] using h61.symm
    · simp only [hs, decide_False] at h61
      have : ¬ (c = .End ∧ p.ending = true) := by
        intro hh
        simp [hh.1, hh.2] at h61
      simp only [hs, false_iff]
      exact this
  · intro hp
    rcases h7 with h7 | h7
    · exact absurd hp h7
    · exact h7
  · intro hp hc
    rcases h8 with (h8 | h8) | h8
    · exact absurd hp h8
    · exact absurd hc h8
    · exact h8
  · intro hp
    simp only at hp
    subst hp
    simp [MainPc.statusOk] at h3
/-- What a move can change: the status is stored by the main thread at the assignment of
`ChangeState` and by the worker thread after `Execute`; `impl` is changed by the main thread
where `End` frees it; the history of the hook and `had_error` are changed by the worker
thread in `Execute`; an execution is begun by the worker thread after its test for `WORK`. -/
theorem Conc.move_frame {s s2 : Conc} {m : Move} (hm : s.move m = some s2) :
    (s2.sys.worker.status ≠ s.sys.worker.status →
      (m = .run .main ∧ s.mpc = .cs_assign ∧ s2.sys.worker.status = s.call.new_status) ∨
      (m = .run .worker ∧ s.tpc = .set_ok ∧ s2.sys.worker.status = .OK)) ∧
    (s2.sys.worker.impl ≠ s.sys.worker.impl →
      m = .run .main ∧ s.mpc = .end_free ∧ s2.sys.worker.impl = none) ∧
    (s2.sys.trace ≠ s.sys.trace ∨ s2.sys.worker.had_error ≠ s.sys.worker.had_error ∨
        s2.completed ≠ s.completed →
      m = .run .worker ∧ s.tpc = .exec ∧ s2.sys = Execute s.sys ∧
        s2.completed = s.completed + 1) ∧
    (s2.begun ≠ s.begun →
      m = .run .worker ∧ s.tpc = .is_work ∧ s.sys.worker.status = .WORK ∧
        s2.begun = s.begun + 1 ∧ s2.tpc = .exec) := by
  rcases s with ⟨⟨⟨impl, status, hk, dd1, dd2, he⟩, thread, trace, allocs, spawns, waits⟩,
    mutex, mpc, call, todo, tpc, done, asked, launched, begun, completed, ml, mu, tl, tu, rets⟩
  rcases m with t | t <;> cases t
  · cases mpc <;> simp only [Conc.move, Conc.mainStep, Conc.setStatus] at hm
    case idle =>
      rcases todo with _ | ⟨c, rest⟩
      · simp at hm
      · simp only [Option.some.injEq] at hm
        subst hm
        simp
    all_goals
      try split_ifs at hm
      all_goals first
        | (simp at hm; done)
        | (simp only [Option.some.injEq] at hm
           subst hm
           simp)
  · cases tpc <;> simp only [Conc.move, Conc.workerStep, Conc.setStatus] at hm
    case exec =>
      simp only [Option.some.injEq] at hm
      subst hm
      cases hk <;> simp [Execute]
    all_goals
      try split_ifs at hm
      all_goals first
        | (simp at hm; done)
        | (simp only [Option.some.injEq] at hm
           subst hm
           simp_all)
  · simp only [Conc.move] at hm
    split_ifs at hm
    simp only [Option.some.injEq] at hm
    subst hm
    simp
  · simp only [Conc.move] at hm
    split_ifs at hm
    simp only [Option.some.injEq] at hm
    subst hm
    simp

/-- Once `impl` is freed no move changes the history of the hook, `had_error` or `impl`. -/
theorem Conc.freed_move {hook : Option WebPWorkerHook} {d1 d2 : Nat} {s s2 : Conc} {m : Move}
    (h : Inv hook d1 d2 s) (hf : s.sys.worker.impl = none) (hm : s.move m = some s2) :
    s2.sys.worker.impl = none ∧ s2.sys.trace = s.sys.trace ∧
      s2.sys.worker.had_error = s.sys.worker.had_error := by
  obtain ⟨-, h2, h3, -⟩ := Conc.move_frame hm
  have ht : s.tpc = .exited :=
    ((View.ok_facts h.ctrl).2.2.1 (by simp [Conc.view, hf])).2.1
  refine ⟨?_, ?_, ?_⟩
  · by_contra hne
    exact hne (h2 (by rw [hf]; exact hne)).2.2
  · by_contra hne
    have := (h3 (Or.inl hne)).2.1
    rw [ht] at this
    cases this
  · by_contra hne
    have := (h3 (Or.inr (Or.inl hne))).2.1
    rw [ht] at this
    cases this

/-- Once `impl` is freed no schedule changes the history of the hook, `had_error` or
`impl`. -/
theorem Conc.freed_exec {hook : Option WebPWorkerHook} {d1 d2 : Nat} (sched : List Move) :
    ∀ {s : Conc}, Inv hook d1 d2 s → s.sys.worker.impl = none →
      (Conc.exec sched s).sys.worker.impl = none ∧
      (Conc.exec sched s).sys.trace = s.sys.trace ∧
      (Conc.exec sched s).sys.worker.had_error = s.sys.worker.had_error := by
  induction sched with
  | nil => intro s _ hf; exact ⟨hf, rfl, rfl⟩
  | cons m ms ih =>
    intro s h hf
    simp only [Conc.exec]
    cases hm : s.move m with
    | none => exact ih h hf
    | some s2 =>
      obtain ⟨e1, e2, e3⟩ := Conc.freed_move h hf hm
      obtain ⟨f1, f2, f3⟩ := ih (Inv_move h hm) e1
      exact ⟨f1, f2.trans e2, f3.trans e3⟩
/-- A step of the worker thread leaves the main thread where it is, or wakes it. -/
theorem View.workerStep_wakes {v v1 : View} (hm : v.workerStep = some v1) :
    v1.mpc = v.mpc ∨ (v.mpc = .cs_blocked ∧ v1.mpc = .cs_relock) := by
  rcases v with ⟨p, t, st, d, c, m, f⟩
  cases t <;> simp only [View.workerStep] at hm
  all_goals
    try split_ifs at hm
    all_goals first
      | (simp at hm; done)
      | (simp only [Option.some.injEq] at hm
         subst hm
         simp_all)

/-- A step of the main thread leaves the worker thread where it is, or wakes it. -/
theorem View.mainStep_wakes {v v1 : View} {next : Option Call}
    (hm : v.mainStep next = some v1) :
    v1.tpc = v.tpc ∨ (v.tpc = .blocked ∧ v1.tpc = .relock) := by
  rcases v with ⟨p, t, st, d, c, m, f⟩
  cases p <;> simp only [View.mainStep] at hm
  case idle =>
    cases next <;> simp only [Option.some.injEq] at hm
    · cases hm
    · subst hm
      simp
  all_goals
    try split_ifs at hm
    all_goals first
      | (simp at hm; done)
      | (simp only [Option.some.injEq] at hm
         subst hm
         simp_all)
/-- A thread that cannot move in a state cannot move in its control part. -/
theorem Conc.view_stuck {s : Conc} {m : Move} (hm : s.move m = none) :
    s.view.move s.todo.head? m = none := by
  rw [← Conc.view_move, hm]
  rfl

/-- A control state in which neither thread can move stays as it is. -/
theorem View.turn_stuck {v : View} (h1 : v.workerStep = none) (h2 : v.mainStep none = none)
    (k : Nat) : View.turn^[k] v = v := by
  have ht : v.turn = v := by simp [View.turn, h1, h2]
  exact Function.iterate_fixed ht k

/-- No deadlock: while the main thread is in a call, one of the two threads can take a
step. -/
theorem Conc.no_deadlock {hook : Option WebPWorkerHook} {d1 d2 : Nat} {s : Conc}
    (h : Inv hook d1 d2 s) (hp : s.mpc ≠ .idle) :
    (s.move (.run .main)).isSome = true ∨ (s.move (.run .worker)).isSome = true := by
  cases hm : s.move (.run .main) with
  | some s2 => exact Or.inl rfl
  | none =>
  cases hw : s.move (.run .worker) with
  | some s2 => exact Or.inr rfl
  | none =>
  exfalso
  have h1 : s.view.workerStep = none := Conc.view_stuck hw
  have h2 : s.view.mainStep none = none := by
    rw [← View.mainStep_next s.view s.todo.head? hp]
    exact Conc.view_stuck hm
  have := View.live h.ctrl
  rw [View.turn_stuck h1 h2] at this
  exact hp this

/-! ## The threaded build, step by step: one task in flight, `End`, the mutex -/

/-- Claim C12: in the threaded build at most one task is in flight.  In every state `s`
that the two threads reach after `Reset`, under every schedule and for every sequence of
calls of `Launch`, `Sync` and `End`: the tasks launched exceed the tasks completed by at
most one, and an execution is running only for a launched task; a move stores `WORK` only
if it is the assignment in `ChangeState`, made by the main thread in `Launch` with the mutex
held, the status being `OK` and every earlier execution having returned; a move changes
the status from `WORK` only if it is the store of `OK` by the worker thread, with the mutex
held, after `Execute` has returned for the task launched; and an execution begins only in
the worker thread, with the mutex held and the status `WORK`, when every earlier execution
has returned, so that two executions never overlap. -/
theorem C12_one_task_in_flight (hook : Option WebPWorkerHook) (d1 d2 : Nat)
    (todo : List Call) (sched : List Move) :
    let s := Conc.reach hook d1 d2 todo sched
    (s.completed ≤ s.begun ∧ s.begun ≤ s.launched ∧ s.launched ≤ s.completed + 1) ∧
    (∀ m s2, s.move m = some s2 → s.sys.worker.status ≠ .WORK →
        s2.sys.worker.status = .WORK →
      m = .run .main ∧ s.mpc = .cs_assign ∧ s.call = .Launch ∧ s.mutex = some .main ∧
        s.sys.worker.status = .OK ∧ s.begun = s.completed ∧ s.launched = s.completed ∧
        s.tpc ≠ .exec) ∧
    (∀ m s2, s.move m = some s2 → s.sys.worker.status = .WORK →
        s2.sys.worker.status ≠ .WORK →
      m = .run .worker ∧ s.tpc = .set_ok ∧ s.mutex = some .worker ∧
        s2.sys.worker.status = .OK ∧ s.begun = s.launched ∧ s.completed = s.launched) ∧
    (∀ m s2, s.move m = some s2 → s2.begun ≠ s.begun →
      m = .run .worker ∧ s.mutex = some .worker ∧ s.sys.worker.status = .WORK ∧
        s.begun = s.completed ∧ s.launched = s.completed + 1 ∧ s2.begun = s.begun + 1) := by
  intro s
  have h : Inv hook d1 d2 s := Inv_reach hook d1 d2 todo sched
  have hin := h.in_flight
  have hrun := h.running
  refine ⟨?_, ?_, ?_, ?_⟩
  · by_cases he : s.tpc = .exec
    · have hw := (View.ok_exec h.ctrl (Or.inl he)).1
      have hw2 : s.sys.worker.status = .WORK := hw
      simp only [he, hw2] at hin hrun
      simp at hin hrun
      omega
    · simp only [he, if_false] at hrun
      split_ifs at hin <;> omega
  · intro m s2 hm h1 h2
    obtain ⟨f1, -, -, -⟩ := Conc.move_frame hm
    rcases f1 (by rw [h2]; exact fun e => h1 e.symm) with ⟨e1, e2, e3⟩ | ⟨e1, e2, e3⟩
    · obtain ⟨g1, g2, g3, g4, g5⟩ := View.ok_assign h.ctrl e2
      have g1 : s.sys.worker.status = .OK := g1
      have g2 : s.tpc ≠ .set_ok := g2
      have g3 : s.tpc ≠ .exec := g3
      have g4 : s.mutex = some .main := g4
      have hc : s.call = .Launch := by
        rw [h2] at e3
        cases hcall : s.call <;> simp [hcall, Call.new_status] at e3 ⊢
      simp only [g1, g3, if_false] at hin hrun
      simp at hin
      exact ⟨e1, e2, hc, g4, g1, hrun, hin, g3⟩
    · rw [e3] at h2
      cases h2
  · intro m s2 hm h1 h2
    obtain ⟨f1, -, -, -⟩ := Conc.move_frame hm
    rcases f1 (by rw [h1]; exact h2) with ⟨e1, e2, e3⟩ | ⟨e1, e2, e3⟩
    · have g1 : s.sys.worker.status = .OK := (View.ok_assign h.ctrl e2).1
      rw [h1] at g1
      cases g1
    · have g2 : s.mutex = some .worker := (View.ok_exec h.ctrl (Or.inr e2)).2.1
      simp only [e2, h1] at hin hrun
      simp at hin hrun
      exact ⟨e1, e2, g2, e3, by omega, by omega⟩
  · intro m s2 hm h1
    obtain ⟨-, -, -, f4⟩ := Conc.move_frame hm
    obtain ⟨e1, e2, e3, e4, -⟩ := f4 h1
    have g2 : s.mutex = some .worker :=
      (View.ok_facts h.ctrl).2.1.mpr (by simp [Conc.view, e2, ThreadPc.holds])
    simp only [e2, e3] at hin hrun
    simp at hin hrun
    exact ⟨e1, g2, e3, hrun, hin, e4⟩
/-- A run of claim C12: the main thread calls `Launch` and takes four steps, up to the
assignment in `ChangeState`; its next step stores `WORK`, and what the claim says of such a
step holds there. -/
theorem C12_one_task_in_flight_witness :
    (Conc.reach (some passingHook) 0 0 [.Launch]
        [.run .main, .run .main, .run .main, .run .main]).sys.worker.status ≠ .WORK ∧
    ((((Conc.reach (some passingHook) 0 0 [.Launch]
        [.run .main, .run .main, .run .main, .run .main]).move (.run .main)).map
          fun s2 => s2.sys.worker.status) = some .WORK) ∧
    (Conc.reach (some passingHook) 0 0 [.Launch]
        [.run .main, .run .main, .run .main, .run .main]).mpc = .cs_assign ∧
    (Conc.reach (some passingHook) 0 0 [.Launch]
        [.run .main, .run .main, .run .main, .run .main]).mutex = some .main :=
  have h := (C12_one_task_in_flight (some passingHook) 0 0 [.Launch]
    [.run .main, .run .main, .run .main, .run .main]).2.1 (.run .main) _ rfl (by decide) rfl
  ⟨by decide, rfl, h.2.1, h.2.2.2.1⟩
/-- Claim C13: `End` never tears a worker down under a running task.  In every state `s`
that the two threads reach after `Reset`, under every schedule and for every sequence of
calls of `Launch`, `Sync` and `End`: a move stores `NOT_OK` only if it is the assignment in
`ChangeState`, made by the main thread in `End` with the mutex held, the status being `OK`
and every task launched having completed; a move frees `impl` only in `End`, after the
worker thread has returned from `ThreadLoop`; once `End` has returned, every call of
`Launch` made before has had its execution of the hook, all of them have returned, and
`had_error` is one exactly if the task has run and fails; once `impl` is freed no schedule
adds an execution of the hook or changes `had_error`; no assertion fails; while the main
thread is in a call one of the two threads can take a step; and every call, `End` among
them, returns: some schedule brings the main thread to the end of its last call. -/
theorem C13_end_waits_for_task (hook : Option WebPWorkerHook) (d1 d2 : Nat)
    (todo : List Call) (sched : List Move) :
    let s := Conc.reach hook d1 d2 todo sched
    (∀ m s2, s.move m = some s2 → s.sys.worker.status ≠ .NOT_OK →
        s2.sys.worker.status = .NOT_OK →
      m = .run .main ∧ s.mpc = .cs_assign ∧ s.call = .End ∧ s.mutex = some .main ∧
        s.sys.worker.status = .OK ∧ s.launched = s.asked ∧ s.begun = s.asked ∧
        s.completed = s.asked ∧ s.tpc ≠ .exec) ∧
    (∀ m s2, s.move m = some s2 → s.sys.worker.impl ≠ none → s2.sys.worker.impl = none →
      m = .run .main ∧ s.mpc = .end_free ∧ s.call = .End ∧ s.tpc = .exited ∧
        s.sys.thread = false ∧ s.sys.worker.status = .NOT_OK ∧ s.completed = s.asked) ∧
    (s.call = .End → s.mpc = .idle →
      s.sys.worker.impl = none ∧ s.sys.worker.status = .NOT_OK ∧ s.tpc = .exited ∧
        s.sys.thread = false ∧ s.mutex = none ∧
        s.launched = s.asked ∧ s.begun = s.asked ∧ s.completed = s.asked ∧
        s.sys.trace = taskTrace hook d1 d2 s.asked ∧
        s.sys.worker.had_error = if 0 < s.asked ∧ taskFails hook d1 d2 = true then 1 else 0) ∧
    (s.sys.worker.impl = none → ∀ sched2,
      (Conc.exec sched2 s).sys.trace = s.sys.trace ∧
        (Conc.exec sched2 s).sys.worker.had_error = s.sys.worker.had_error ∧
        (Conc.exec sched2 s).sys.worker.impl = none) ∧
    s.mpc ≠ .aborted ∧
    (s.mpc ≠ .idle →
      (s.move (.run .main)).isSome = true ∨ (s.move (.run .worker)).isSome = true) ∧
    (∃ sched2, (Conc.exec sched2 s).finished = true) := by
  intro s
  have h : Inv hook d1 d2 s := Inv_reach hook d1 d2 todo sched
  have hin := h.in_flight
  have hrun := h.running
  have hask := h.asked_eq
  obtain ⟨k1, k2, k3, k4, k5, k6, k7⟩ := View.ok_facts h.ctrl
  refine ⟨?_, ?_, ?_, ?_, k7, Conc.no_deadlock h, Conc.all_return _ s h rfl⟩
  · intro m s2 hm h1 h2
    obtain ⟨f1, -, -, -⟩ := Conc.move_frame hm
    rcases f1 (by rw [h2]; exact fun e => h1 e.symm) with ⟨e1, e2, e3⟩ | ⟨e1, e2, e3⟩
    · obtain ⟨g1, g2, g3, g4, g5⟩ := View.ok_assign h.ctrl e2
      have g1 : s.sys.worker.status = .OK := g1
      have g3 : s.tpc ≠ .exec := g3
      have g4 : s.mutex = some .main := g4
      have hc : s.call = .End := by
        rw [h2] at e3
        cases hcall : s.call <;> simp [hcall, Call.new_status] at e3 ⊢
      simp only [g1, g3, hc, if_false] at hin hrun hask
      simp at hin hask
      exact ⟨e1, e2, hc, g4, g1, hask.symm, by omega, by omega, g3⟩
    · rw [e3] at h2
      cases h2
  · intro m s2 hm h1 h2
    obtain ⟨-, f2, -, -⟩ := Conc.move_frame hm
    obtain ⟨e1, e2, -⟩ := f2 (by rw [h2]; exact fun e => h1 e.symm)
    have hnf : s.view.freed = false := by
      cases hi : s.sys.worker.impl with
      | none => exact absurd hi h1
      | some i => simp [Conc.view, hi]
    have ht : s.tpc = .exited := k5 e2
    obtain ⟨g1, -⟩ := k4 hnf
    have hst := (View.ok_status h.ctrl).1
    have e2v : s.view.mpc = .end_free := e2
    rw [e2v] at hst
    simp only [MainPc.statusOk, Bool.and_eq_true, decide_eq_true_eq] at hst
    have hc : s.call = .End := hst.1
    have hs : s.sys.worker.status = .NOT_OK := hst.2
    have hth := h.thread_alive
    simp only [ht, hs, hc, e2] at hin hrun hask hth
    simp at hin hask hth
    exact ⟨e1, e2, hc, ht, hth, hs, by omega⟩
  · intro hc hp
    have hf : s.view.freed = true := k6 hp hc
    obtain ⟨g1, g2, -⟩ := k3 hf
    have g1 : s.sys.worker.status = .NOT_OK := g1
    have g2 : s.tpc = .exited := g2
    have hi : s.sys.worker.impl = none := by
      simpa [Conc.view] using hf
    have hth := h.thread_alive
    have hmu : s.mutex = none := by
      cases hmx : s.mutex with
      | none => rfl
      | some t =>
        cases t
        · have := k1.mp hmx
          have hp2 : s.view.mpc = .idle := hp
          simp [hp2, MainPc.holds] at this
        · have := k2.mp hmx
          have g3 : s.view.tpc = .exited := g2
          simp [g3, ThreadPc.holds] at this
    have htr := h.trace_eq
    have her := h.error_eq
    simp only [g1, g2, hc, hp] at hin hrun hask hth
    simp at hin hrun hask hth
    have e1 : s.launched = s.asked := hask.symm
    have e2 : s.completed = s.asked := by omega
    have e3 : s.begun = s.asked := by omega
    rw [e2] at htr her
    exact ⟨hi, g1, g2, hth, hmu, e1, e3, e2, htr, her⟩
  · intro hi sched2
    obtain ⟨f1, f2, f3⟩ := Conc.freed_exec sched2 h hi
    exact ⟨f2, f3, f1⟩
/-- A run of claim C13: `Launch` and then `End` on a worker whose hook fails, under the
schedule `endRun`, in which `End` finds the task not yet run and waits once.  `End` has
returned, and what the claim says then holds: the one task asked for has completed and
`had_error` is one. -/
theorem C13_end_waits_for_task_witness :
    (Conc.reach (some failingHook) 3 4 [.Launch, .End] endRun).call = .End ∧
    (Conc.reach (some failingHook) 3 4 [.Launch, .End] endRun).mpc = .idle ∧
    (Conc.reach (some failingHook) 3 4 [.Launch, .End] endRun).sys.waits = 1 ∧
    (Conc.reach (some failingHook) 3 4 [.Launch, .End] endRun).completed = 1 ∧
    (Conc.reach (some failingHook) 3 4 [.Launch, .End] endRun).sys.worker.had_error = 1 :=
  have h := (C13_end_waits_for_task (some failingHook) 3 4 [.Launch, .End] endRun).2.2.1
    rfl rfl
  ⟨rfl, rfl, rfl, h.2.2.2.2.2.2.2.1.trans rfl, h.2.2.2.2.2.2.2.2.2.trans (by decide)⟩
/-- Claim C14: the mutex discipline of `ThreadLoop` and `ChangeState`.  In every state `s`
that the two threads reach after `Reset`, under every schedule and for every sequence of
calls of `Launch`, `Sync` and `End`: a thread that stands at a test or a store of the
status, at a call of `pthread_cond_wait` or in `Execute` owns the mutex; a thread that wakes
up in `pthread_cond_wait`, by a signal or spuriously, takes the mutex and goes back to the
test of its loop, and a thread is past its loop only when the tested condition holds (the
status is `OK` for the main thread, not `OK` for the worker thread); a thread that stands
at `pthread_cond_signal` does not own the mutex and has unlocked as often as it has locked;
the calls of lock exceed the calls of unlock by one while the thread is between the two and
are equal otherwise, in particular where `ChangeState` has returned and at the head of the
loop of `ThreadLoop` and after it. -/
theorem C14_mutex_discipline (hook : Option WebPWorkerHook) (d1 d2 : Nat)
    (todo : List Call) (sched : List Move) :
    let s := Conc.reach hook d1 d2 todo sched
    ((s.mpc = .cs_ge ∨ s.mpc = .cs_loop ∨ s.mpc = .cs_cond_wait ∨ s.mpc = .cs_assign) →
      s.mutex = some .main) ∧
    ((s.tpc = .test ∨ s.tpc = .cond_wait ∨ s.tpc = .is_work ∨ s.tpc = .exec ∨
        s.tpc = .set_ok ∨ s.tpc = .is_not_ok) → s.mutex = some .worker) ∧
    (∀ s2, s.mpc = .cs_cond_wait → s.move (.run .main) = some s2 →
      s2.mpc = .cs_blocked ∧ s2.mutex = none) ∧
    (∀ s2, s.tpc = .cond_wait → s.move (.run .worker) = some s2 →
      s2.tpc = .blocked ∧ s2.mutex = none) ∧
    (∀ m s2, s.mpc = .cs_blocked → s.move m = some s2 → s2.mpc ≠ .cs_blocked →
      s2.mpc = .cs_relock) ∧
    (∀ m s2, s.tpc = .blocked → s.move m = some s2 → s2.tpc ≠ .blocked →
      s2.tpc = .relock) ∧
    (∀ s2, s.mpc = .cs_relock → s.move (.run .main) = some s2 →
      s2.mpc = .cs_loop ∧ s2.mutex = some .main) ∧
    (∀ s2, s.tpc = .relock → s.move (.run .worker) = some s2 →
      s2.tpc = .test ∧ s2.mutex = some .worker) ∧
    (s.mpc = .cs_assign → s.sys.worker.status = .OK) ∧
    ((s.tpc = .is_work ∨ s.tpc = .exec ∨ s.tpc = .set_ok ∨ s.tpc = .is_not_ok) →
      s.sys.worker.status ≠ .OK) ∧
    (s.mpc = .cs_signal → s.mutex ≠ some .main ∧ s.mlocks = s.munlocks) ∧
    (s.tpc = .signal → s.mutex ≠ some .worker ∧ s.tlocks = s.tunlocks) ∧
    (s.mlocks = s.munlocks + (if s.mpc.locked = true then 1 else 0)) ∧
    (s.tlocks = s.tunlocks + (if s.tpc.locked = true then 1 else 0)) ∧
    ((s.mpc = .idle ∨ s.mpc = .sync_assert ∨ s.mpc = .end_join ∨ s.mpc = .end_free ∨
        s.mpc = .end_assert) → s.mutex ≠ some .main ∧ s.mlocks = s.munlocks) ∧
    ((s.tpc = .lock ∨ s.tpc = .exited) → s.mutex ≠ some .worker ∧ s.tlocks = s.tunlocks) := by
  intro s
  have h : Inv hook d1 d2 s := Inv_reach hook d1 d2 todo sched
  have hmc := h.main_count
  have hwc := h.worker_count
  obtain ⟨k1, k2, -⟩ := View.ok_facts h.ctrl
  have k1 : s.mutex = some .main ↔ s.mpc.holds = true := k1
  have k2 : s.mutex = some .worker ↔ s.tpc.holds = true := k2
  obtain ⟨hs1, hs2⟩ := View.ok_status h.ctrl
  have hs1 : s.mpc.statusOk s.call s.sys.worker.status = true := hs1
  have hs2 : s.tpc.statusOk s.done s.sys.worker.status = true := hs2
  refine ⟨?_, ?_, ?_, ?_, ?_, ?_, ?_, ?_, ?_, ?_, ?_, ?_, hmc, hwc, ?_, ?_⟩
  · intro hp
    apply k1.mpr
    rcases hp with hp | hp | hp | hp <;> rw [hp] <;> rfl
  · intro hp
    apply k2.mpr
    rcases hp with hp | hp | hp | hp | hp | hp <;> rw [hp] <;> rfl
  · intro s2 hp hm
    simp only [Conc.move, Conc.mainStep, hp, Option.some.injEq] at hm
    subst hm
    exact ⟨rfl, rfl⟩
  · intro s2 hp hm
    simp only [Conc.move, Conc.workerStep, hp, Option.some.injEq] at hm
    subst hm
    exact ⟨rfl, rfl⟩
  · intro m s2 hp hm hne
    rcases m with t | t <;> cases t
    · simp [Conc.move, Conc.mainStep, hp] at hm
    · have hv : s.view.workerStep = some s2.view := Conc.view_of_move hm
      rcases View.workerStep_wakes hv with e | ⟨-, e⟩
      · exact absurd (e.trans hp) hne
      · exact e
    · simp only [Conc.move, hp, if_true, Option.some.injEq] at hm
      subst hm
      rfl
    · simp only [Conc.move] at hm
      split_ifs at hm
      simp only [Option.some.injEq] at hm
      subst hm
      exact absurd hp hne
  · intro m s2 hp hm hne
    rcases m with t | t <;> cases t
    · have hv : s.view.mainStep s.todo.head? = some s2.view := Conc.view_of_move hm
      rcases View.mainStep_wakes hv with e | ⟨-, e⟩
      · exact absurd (e.trans hp) hne
      · exact e
    · simp [Conc.move, Conc.workerStep, hp] at hm
    · simp only [Conc.move] at hm
      split_ifs at hm
      simp only [Option.some.injEq] at hm
      subst hm
      exact absurd hp hne
    · simp only [Conc.move, hp, if_true, Option.some.injEq] at hm
      subst hm
      rfl
  · intro s2 hp hm
    simp only [Conc.move, Conc.mainStep, hp] at hm
    split_ifs at hm
    simp only [Option.some.injEq] at hm
    subst hm
    exact ⟨rfl, rfl⟩
  · intro s2 hp hm
    simp only [Conc.move, Conc.workerStep, hp] at hm
    split_ifs at hm
    simp only [Option.some.injEq] at hm
    subst hm
    exact ⟨rfl, rfl⟩
  · intro hp
    rw [hp] at hs1
    simp only [MainPc.statusOk, Bool.and_eq_true, decide_eq_true_eq] at hs1
    exact hs1.1
  · intro hp
    rcases hp with hp | hp | hp | hp <;> rw [hp] at hs2 <;>
      simp only [ThreadPc.statusOk, Bool.and_eq_true, decide_eq_true_eq] at hs2 <;>
      intro hok <;> simp [hok] at hs2
  · intro hp
    rw [hp] at hmc k1
    exact ⟨fun hm => by simpa [MainPc.holds] using k1.mp hm, by simpa [MainPc.locked, MainPc.holds] using hmc⟩
  · intro hp
    rw [hp] at hwc k2
    exact ⟨fun hm => by simpa [ThreadPc.holds] using k2.mp hm, by simpa [ThreadPc.locked, ThreadPc.holds] using hwc⟩
  · intro hp
    rcases hp with hp | hp | hp | hp | hp <;> rw [hp] at hmc k1 <;>
      exact ⟨fun hm => by simpa [MainPc.holds] using k1.mp hm,
        by simpa [MainPc.locked, MainPc.holds] using hmc⟩
  · intro hp
    rcases hp with hp | hp <;> rw [hp] at hwc k2 <;>
      exact ⟨fun hm => by simpa [ThreadPc.holds] using k2.mp hm,
        by simpa [ThreadPc.locked, ThreadPc.holds] using hwc⟩
/-- A run of claim C14: `Launch` and then `Sync` under the schedule `spuriousRun`, in which
the main thread waits in `Sync` for the task and wakes up spuriously.  Its next step takes
the mutex and goes back to the test of the loop, as the claim says, and the status it will
test is still `WORK`. -/
theorem C14_mutex_discipline_witness :
    (Conc.reach (some passingHook) 0 0 [.Launch, .Sync] spuriousRun).mpc = .cs_relock ∧
    (Conc.reach (some passingHook) 0 0 [.Launch, .Sync] spuriousRun).sys.worker.status
      = .WORK ∧
    ∃ s2, (Conc.reach (some passingHook) 0 0 [.Launch, .Sync] spuriousRun).move (.run .main)
        = some s2 ∧ s2.mpc = .cs_loop ∧ s2.mutex = some .main :=
  have h := (C14_mutex_discipline (some passingHook) 0 0 [.Launch, .Sync]
    spuriousRun).2.2.2.2.2.2.1 _ rfl rfl
  ⟨rfl, rfl, _, rfl, h⟩

end WebP
